import Mathlib

/-!
Verification of the merge/deduplication engine, history reconciliation,
cache-compare updater and probe orchestrator of an IPTV channel aggregator
(`utils/channel.py`).

Modelling conventions:
* Python strings are `String`; `url.partition("$")[0]` is `pureOf`,
  `url.partition("$")[2]` is `urlInfoOf`; `len` is `String.length`;
  `needle in hay` is the substring test `strIn`.
* Python `dict`s are ordered association lists; Python `set`s are lists
  with set-semantics insertion (`setInsert`) and removal (`List.erase`);
  iteration over a set is determinised to insertion order.
* Optional / possibly-missing dict fields are `Option String`; Python
  truthiness of such a field is `pyTruthy` (absent or `""` is falsy).
* The external helpers of `utils/tools.py` (`get_url_host`,
  `check_url_ipv6`, `check_ipv_type_match`, `check_url_by_keywords`)
  are uninterpreted parameters bundled in `Env`; theorems that need the
  host of a URL to be unaffected by its `$`-suffix state that as an
  explicit hypothesis, and witnesses instantiate `Env` concretely.
-/

namespace IptvApi

/-- Characters of a string before the first `'$'` (Python `s.partition("$")[0]`). -/
def pureAux : List Char → List Char
  | [] => []
  | c :: cs => if c = '$' then [] else c :: pureAux cs

/-- Part of the url before the first `'$'`: the "pure URL". -/
def pureOf (s : String) : String := ⟨pureAux s.data⟩

/-- Characters of a string after the first `'$'` (Python `s.partition("$")[2]`). -/
def infoAux : List Char → List Char
  | [] => []
  | c :: cs => if c = '$' then cs else infoAux cs

/-- Annotation suffix of a url: everything after the first `'$'`. -/
def urlInfoOf (s : String) : String := ⟨infoAux s.data⟩

/-- Python `info and info.startswith("!")` on the `$`-suffix: the force-keep
("white") marker test of `append_data_to_info_data` and `format_channel_data`. -/
def whiteInfo (s : String) : Bool :=
  match infoAux s.data with
  | [] => false
  | c :: _ => c = '!'

/-- Boolean prefix test on character lists. -/
def prefAux : List Char → List Char → Bool
  | [], _ => true
  | _ :: _, [] => false
  | a :: as, b :: bs => a = b && prefAux as bs

/-- Boolean substring test on character lists. -/
def subAux (n : List Char) : List Char → Bool
  | [] => n.isEmpty
  | b :: bs => prefAux n (b :: bs) || subAux n bs

/-- Python `needle in hay` on strings (substring containment). -/
def strIn (needle hay : String) : Bool := subAux needle.data hay.data

/-- Set-semantics insertion into a list: Python `set.add` determinised to
append-if-absent (insertion order). -/
def setInsert (l : List String) (s : String) : List String :=
  if s ∈ l then l else l ++ [s]

/-- Python dict assignment `m[k] = v` on an association list: replace the
value at an existing key, else append the new binding. -/
def insertAssoc (m : List (String × α)) (k : String) (v : α) : List (String × α) :=
  if (m.lookup k).isSome then m.map (fun p => if p.1 = k then (k, v) else p)
  else m ++ [(k, v)]

/-- Python truthiness of a possibly-missing string field: a missing key or
an empty string is falsy. -/
def pyTruthy : Option String → Bool
  | none => false
  | some s => s ≠ ""

/-- A channel record: the dicts stored in `info_data[cate][name]`, with keys
`url`, `date`, `resolution`, `origin`, `ipv_type`.  `origin` is `Option`
because history records are only assumed to carry the key in a `try` block. -/
structure ChannelData where
  url : String
  date : Option String
  resolution : Option String
  origin : Option String
  ipv_type : Option String
  deriving DecidableEq, Repr

/-- A raw candidate handed to the merge engine: a dict that may lack any of
its keys (`item["url"]` / `item["origin"]` raise `KeyError` when absent;
the other fields are read with `.get(_, None)`). -/
structure Candidate where
  url : Option String
  date : Option String
  resolution : Option String
  origin : Option String
  ipv_type : Option String
  deriving DecidableEq, Repr

/-- External helpers from `utils/tools.py`, left uninterpreted:
`get_url_host`, `check_url_ipv6`, `check_ipv_type_match`,
`check_url_by_keywords`. -/
structure Env where
  host : String → String
  isIpv6 : String → Bool
  ipvMatch : Option String → Bool
  matchKw : String → List String → Bool

/-- Working state of one `append_data_to_info_data` call: the channel list
`info_data[cate][name]`, the local `urls` / `url_hosts` sets, and the shared
`ipv_type_data` cache. -/
structure MergeState where
  lst : List ChannelData
  urls : List String
  hosts : List String
  ipvCache : List (String × String)
  deriving Repr

/-- Python `origin or item["origin"]`: the override when truthy, else the
candidate's own field (whose absence means `KeyError`, hence `none`). -/
def extractOrigin (ov : Option String) (c : Candidate) : Option String :=
  if pyTruthy ov then ov else c.origin

/-- The ipv_type resolution block of `append_data_to_info_data` (lines
490-496): candidate-declared value, else cache lookup, else derived from the
pure URL and cached.  Both cache accesses are guarded by dict truthiness
(an empty `ipv_type_data` is falsy, so it is neither read nor written). -/
def resolveIpv (env : Env) (cache : List (String × String)) (cIpv : Option String)
    (urlHost pure : String) : Option String × List (String × String) :=
  if pyTruthy cIpv then (cIpv, cache)
  else
    let fromCache := if cache.isEmpty then none else cache.lookup urlHost
    if pyTruthy fromCache then (fromCache, cache)
    else
      let v := if env.isIpv6 pure then "ipv6" else "ipv4"
      (some v, if cache.isEmpty then cache else insertAssoc cache urlHost v)

/-- Record constructed by the merge engine on replacement or append. -/
def mkRecord (url : String) (date res : Option String) (origin : String)
    (ipv : Option String) : ChannelData :=
  ⟨url, date, res, some origin, ipv⟩

/-- Replacement scan of the host-collision branch (lines 503-512): overwrite
the first record whose url is truthy and has the colliding host. -/
def replaceFirstHost (env : Env) (h : String) (r : ChannelData) :
    List ChannelData → List ChannelData
  | [] => []
  | x :: xs =>
      if x.url ≠ "" ∧ env.host x.url = h then r :: xs
      else x :: replaceFirstHost env h r xs

/-- Processing of one candidate by `append_data_to_info_data` (the body of
the `for item in data` loop, lines 476-534).  A missing `url` or `origin`
key raises and is swallowed by the `except` clause, leaving the state
unchanged; a falsy origin or url is skipped by the explicit guards. -/
def processItem (env : Env) (check : Bool) (wl bl : List String)
    (ov : Option String) (st : MergeState) (c : Candidate) : MergeState :=
  match c.url with
  | none => st
  | some url =>
    match extractOrigin ov c with
    | none => st
    | some urlOrigin =>
      if urlOrigin = "" then st
      else if url = "" then st
      else
        let pure := pureOf url
        let urlHost := env.host pure
        let white := whiteInfo url
        if white = false ∧ pure ∈ st.urls then st
        else
          let ic := resolveIpv env st.ipvCache c.ipv_type urlHost pure
          let ipv := ic.1
          let cache' := ic.2
          if white = false ∧ urlHost ∈ st.hosts then
            match st.urls.find? (fun p =>
                env.host p == urlHost && decide (p.length < pure.length)) with
            | some p =>
                { lst := replaceFirstHost env urlHost
                    (mkRecord url c.date c.resolution urlOrigin ipv) st.lst
                  urls := (st.urls.erase p) ++ [pure]
                  hosts := st.hosts
                  ipvCache := cache' }
            | none => { st with ipvCache := cache' }
          else
            let origin' :=
              if white = true ∨ (wl ≠ [] ∧ env.matchKw url wl = true) then "whitelist"
              else urlOrigin
            if origin' = "whitelist" ∨ check = false ∨
                (check = true ∧ env.ipvMatch ipv = true ∧ env.matchKw url bl = false) then
              { lst := st.lst ++ [mkRecord url c.date c.resolution origin' ipv]
                urls := setInsert st.urls pure
                hosts := setInsert st.hosts urlHost
                ipvCache := cache' }
            else { st with ipvCache := cache' }

/-- The `urls` set seeded at the top of `append_data_to_info_data` (line
473): pure URLs of the records with a truthy url. -/
def initUrls (lst : List ChannelData) : List String :=
  lst.foldl (fun acc r => if r.url ≠ "" then setInsert acc (pureOf r.url) else acc) []

/-- The `url_hosts` set (line 474): hosts of the seeded pure URLs. -/
def initHosts (env : Env) (urls : List String) : List String :=
  urls.foldl (fun acc u => setInsert acc (env.host u)) []

/-- One full `append_data_to_info_data` call on a single channel list:
seed the working sets, then fold the candidate loop over the batch. -/
def appendDataToInfoData (env : Env) (check : Bool) (wl bl : List String)
    (ov : Option String) (lst : List ChannelData) (cache : List (String × String))
    (batch : List Candidate) : MergeState :=
  let urls := initUrls lst
  batch.foldl (processItem env check wl bl ov)
    ⟨lst, urls, initHosts env urls, cache⟩

/-- A category's ordered map channel-name → channel list. -/
abbrev NameMap := List (String × List ChannelData)

/-- The full `CategoryChannelData` structure: ordered map category → NameMap. -/
abbrev CategoryMap := List (String × NameMap)

/-- Filter applied to one prior-run record by `get_channel_items` (lines
130-140): a whitelist-origin record is dropped unless some whitelist URL is a
substring of its url (a missing `origin` key raises and the `except: pass`
falls through); any surviving record is appended iff its pure URL is not
among the freshly declared pure URLs. -/
def keepOld (wlUrls urls : List String) (info : ChannelData) : Bool :=
  let dropWl :=
    match info.origin with
    | some o => o = "whitelist" && !(wlUrls.any (fun u => strIn u info.url))
    | none => false
  if dropWl then false else decide (pureOf info.url ∉ urls)

/-- The freshly declared pure URLs of one channel (lines 124-128): a list
comprehension over the records with a truthy url. -/
def freshUrls (freshList : List ChannelData) : List String :=
  freshList.filterMap (fun i => if i.url ≠ "" then some (pureOf i.url) else none)

/-- History reconciliation for one channel (the `for info in
old_result[cate][name]` loop): append each kept history record after the
freshly declared records. -/
def reconcileName (wlUrls : List String) (freshList oldList : List ChannelData) :
    List ChannelData :=
  let urls := freshUrls freshList
  oldList.foldl (fun acc info => if keepOld wlUrls urls info then acc ++ [info] else acc)
    freshList

/-- The history block of `get_channel_items` (lines 121-140): for every
(category, name) of the freshly parsed structure that also occurs in the
prior-run snapshot, reconcile the channel's list against the history. -/
def getChannelItemsHistory (channels old : CategoryMap) (wlUrls : List String) :
    CategoryMap :=
  channels.map (fun cd =>
    match old.lookup cd.1 with
    | none => cd
    | some oldCate =>
        (cd.1, cd.2.map (fun nl =>
          match oldCate.lookup nl.1 with
          | none => nl
          | some oldList => (nl.1, reconcileName wlUrls nl.2 oldList))))

/-- Nested lookup `data[cate][name]` on the two-level structure. -/
def lookup2 (d : CategoryMap) (cate name : String) : Option (List ChannelData) :=
  (d.lookup cate).bind (fun nm => nm.lookup name)

/-- Nested assignment `data[cate][name] = v` to an existing key pair. -/
def updateNested (d : CategoryMap) (cate name : String) (v : List ChannelData) :
    CategoryMap :=
  d.map (fun cd =>
    if cd.1 = cate then
      (cd.1, cd.2.map (fun nl => if nl.1 = name then (nl.1, v) else nl))
    else cd)

/-- Fresh lookup and rebuild of one channel by
`get_channel_data_cache_with_compare` (lines 820-836): a dict from pure URL
to freshly observed resolution (later entries overwrite earlier ones), then
the prior records filtered to those whose pure URL is in the dict, each with
only its `resolution` replaced. -/
def buildNewUrls (urlInfo : List ChannelData) : List (String × Option String) :=
  urlInfo.foldl (fun m info => insertAssoc m (pureOf info.url) info.resolution) []

/-- Rebuild of one channel list by the cache-compare updater (the
`updated_data` loop): prior records whose pure URL is in the fresh lookup,
in prior order, with only the `resolution` field replaced. -/
def compareName (oldList urlInfo : List ChannelData) : List ChannelData :=
  let newUrls := buildNewUrls urlInfo
  oldList.foldl (fun acc info =>
    match newUrls.lookup (pureOf info.url) with
    | some res => acc ++ [⟨info.url, info.date, res, info.origin, info.ipv_type⟩]
    | none => acc) []

/-- The cache-compare updater `get_channel_data_cache_with_compare` (lines
813-837): for every (category, name) of the fresh snapshot with a non-empty
list that is also present in the prior structure, replace the prior channel
list by its rebuilt version. -/
def getChannelDataCacheWithCompare (data newData : CategoryMap) : CategoryMap :=
  newData.foldl (fun d co =>
    co.2.foldl (fun d2 nu =>
      if nu.2 ≠ [] ∧ (lookup2 d2 co.1 nu.1).isSome then
        updateNested d2 co.1 nu.1 (compareName ((lookup2 d2 co.1 nu.1).getD []) nu.2)
      else d2) d) data

/-! ### Probe orchestrator model

`process_sort_channel_list` (lines 647-704) creates one asyncio task per
record; each task body acquires a `Semaphore(10)` before probing and releases
it on completion; `asyncio.gather` suspends the orchestrator until every task
has resolved, after which the ranking pass runs.  We model this as a
transition system over task statuses and an orchestrator phase: a `pending`
task is a created task waiting on the semaphore, a `running` task holds the
semaphore (its probe is in flight), a `done` task has resolved (success,
failure or timeout).  The gather barrier is the guard of the phase
transition. -/

/-- Status of one probe task. -/
inductive TaskStatus where
  | pending
  | running
  | done
  deriving DecidableEq, Repr

/-- Phase of the orchestrator: before or after the gather barrier. -/
inductive ProbePhase where
  | probing
  | ranking
  deriving DecidableEq, Repr

/-- State of the probe orchestrator. -/
structure ProbeState where
  tasks : List TaskStatus
  phase : ProbePhase
  deriving DecidableEq, Repr

/-- Number of probes currently holding the semaphore. -/
def runningCount (ts : List TaskStatus) : Nat :=
  ts.countP (fun t => t = TaskStatus.running)

/-- Number of tasks that have not yet resolved. -/
def unresolvedCount (ts : List TaskStatus) : Nat :=
  ts.countP (fun t => t ≠ TaskStatus.done)

/-- Initial state: every scheduled task exists (created by
`asyncio.create_task`) and is pending on the semaphore. -/
def probeInit (n : Nat) : ProbeState :=
  ⟨List.replicate n TaskStatus.pending, ProbePhase.probing⟩

/-- One step of the cooperative scheduler: a pending task may acquire the
semaphore only while fewer than 10 probes hold it; a running probe may
resolve, releasing the semaphore; the orchestrator passes the gather barrier
only when every task is done. -/
inductive ProbeStep : ProbeState → ProbeState → Prop where
  | start (ts : List TaskStatus) (i : Nat) (hi : i < ts.length)
      (hp : ts.get ⟨i, hi⟩ = TaskStatus.pending)
      (hsem : runningCount ts < 10) :
      ProbeStep ⟨ts, ProbePhase.probing⟩ ⟨ts.set i TaskStatus.running, ProbePhase.probing⟩
  | finish (ts : List TaskStatus) (i : Nat) (hi : i < ts.length)
      (hr : ts.get ⟨i, hi⟩ = TaskStatus.running) :
      ProbeStep ⟨ts, ProbePhase.probing⟩ ⟨ts.set i TaskStatus.done, ProbePhase.probing⟩
  | gather (ts : List TaskStatus) (hall : ∀ t ∈ ts, t = TaskStatus.done) :
      ProbeStep ⟨ts, ProbePhase.probing⟩ ⟨ts, ProbePhase.ranking⟩

/-- Reachability of an orchestrator state from the initial state. -/
def ProbeReachable (n : Nat) (s : ProbeState) : Prop :=
  Relation.ReflTransGen ProbeStep (probeInit n) s

/-! ### Concrete instantiation used by witnesses and counterexamples -/

/-- Host of a concrete `http://` url: the characters between `"http://"` and
the next `'/'`, computed on the pure URL so that the `$`-suffix never
affects it. -/
def hostOf (u : String) : String :=
  ⟨((pureOf u).data.drop 7).takeWhile (fun c => c ≠ '/')⟩

/-- Concrete environment for witnesses: substring keyword matching,
`$`-insensitive host extraction, no IPv6 urls, every ipv_type preferred. -/
def envW : Env :=
  { host := hostOf
    isIpv6 := fun _ => false
    ipvMatch := fun _ => true
    matchKw := fun u kws => kws.any (fun k => strIn k u) }

/-! ### General helper lemmas -/

theorem pureAux_idem (l : List Char) : pureAux (pureAux l) = pureAux l := by
  induction l with
  | nil => rfl
  | cons c cs ih =>
      by_cases h : c = '$'
      · simp [pureAux, h]
      · simp [pureAux, h, ih]

theorem pureOf_idem (s : String) : pureOf (pureOf s) = pureOf s := by
  simp [pureOf, pureAux_idem]

theorem foldl_filter_append {α : Type} (p : α → Bool) :
    ∀ (l acc : List α),
      l.foldl (fun a x => if p x then a ++ [x] else a) acc = acc ++ l.filter p := by
  intro l
  induction l with
  | nil => intro acc; simp
  | cons x xs ih =>
      intro acc
      by_cases h : p x
      · simp [List.foldl_cons, h, ih, List.filter_cons_of_pos h]
      · have h' : p x = false := by simpa using h
        simp [List.foldl_cons, h', ih, List.filter_cons_of_neg, h]

theorem lookup_map_general {α β : Type} (F : String × α → String × β)
    (hF : ∀ p, (F p).1 = p.1) :
    ∀ (l : List (String × α)) (k : String),
      (l.map F).lookup k = (l.lookup k).map (fun v => (F (k, v)).2) := by
  intro l k
  induction l with
  | nil => simp
  | cons p ps ih =>
      by_cases h : k = p.1
      · subst h
        have h1 : (p.1 == (F p).1) = true := by rw [hF]; simp
        simp [List.lookup, h1, hF]
      · have hb : (k == p.1) = false := by simpa using h
        have hb2 : (k == (F p).1) = false := by rw [hF]; exact hb
        simp [List.lookup, hb, hb2, ih]

/-! ### Claim C1: history reconciliation

The claim says a prior-run record is retained only if its pure URL IS among
the freshly declared pure URLs, and that records with an absent pure URL are
absent after reconciliation.  The code (line 139) does the opposite: it
appends a history record exactly when its pure URL is NOT among the freshly
declared ones (so fresh records are not duplicated), after dropping
whitelist-origin records no current whitelist URL occurs in. -/

/-- Claim C1, counterexample: with one freshly declared url `http://y/1` and a
history record whose url `http://x/1` has a pure URL absent from the fresh
set, the history record is PRESENT after reconciliation, contradicting the
claim that such records are absent. -/
theorem c1_counterexample :
    getChannelItemsHistory
        [("c", [("n", [⟨"http://y/1", none, none, some "local", none⟩])])]
        [("c", [("n", [⟨"http://x/1", none, none, some "online_search", none⟩])])] []
      = [("c", [("n", [⟨"http://y/1", none, none, some "local", none⟩,
                       ⟨"http://x/1", none, none, some "online_search", none⟩])])]
    ∧ pureOf "http://x/1" ∉ freshUrls [⟨"http://y/1", none, none, some "local", none⟩] := by
  decide

/-- Claim C1 (amended): a prior-run record for a (category, name) pair
present in both structures is appended after the fresh records exactly when
it is not a whitelist-origin record lacking every current whitelist URL as a
substring of its url AND its pure URL is absent from the freshly declared
pure URLs of that channel; equivalently, reconciliation appends the
`keepOld`-filtered history list after the fresh list. -/
theorem c1_history_reconciliation :
    (∀ (wl : List String) (fresh old : List ChannelData),
       reconcileName wl fresh old = fresh ++ old.filter (keepOld wl (freshUrls fresh))) ∧
    (∀ (channels oldS : CategoryMap) (wl : List String) (cate name : String)
       (freshL oldL : List ChannelData),
       lookup2 channels cate name = some freshL →
       lookup2 oldS cate name = some oldL →
       lookup2 (getChannelItemsHistory channels oldS wl) cate name =
         some (freshL ++ oldL.filter (keepOld wl (freshUrls freshL)))) := by
  have base : ∀ (wl : List String) (fresh old : List ChannelData),
      reconcileName wl fresh old = fresh ++ old.filter (keepOld wl (freshUrls fresh)) := by
    intro wl fresh old
    unfold reconcileName
    exact foldl_filter_append (keepOld wl (freshUrls fresh)) old fresh
  refine ⟨base, ?_⟩
  intro channels oldS wl cate name freshL oldL h1 h2
  unfold lookup2 at h1 h2 ⊢
  rcases hc : channels.lookup cate with _ | data
  · rw [hc] at h1; simp at h1
  rw [hc] at h1
  simp only [Option.some_bind] at h1
  rcases ho : oldS.lookup cate with _ | oldCate
  · rw [ho] at h2; simp at h2
  rw [ho] at h2
  simp only [Option.some_bind] at h2
  unfold getChannelItemsHistory
  rw [lookup_map_general _ (fun p => by
    rcases h : oldS.lookup p.1 with _ | oc
    · simp [h]
    · simp [h])]
  rw [hc]
  simp only [Option.map_some', Option.some_bind, ho]
  rw [lookup_map_general _ (fun p => by
    rcases h : oldCate.lookup p.1 with _ | ol
    · simp [h]
    · simp [h])]
  rw [h1]
  simp only [Option.map_some', h2]
  rw [base]

/-- Claim C1 witness: the amended theorem applied at a concrete pair of
structures, with a kept non-whitelist history record. -/
theorem c1_witness :
    lookup2 (getChannelItemsHistory
        [("c", [("n", [⟨"http://y/1", none, none, some "local", none⟩])])]
        [("c", [("n", [⟨"http://x/1", none, none, some "online_search", none⟩])])] [])
        "c" "n"
      = some ([⟨"http://y/1", none, none, some "local", none⟩] ++
          List.filter (keepOld []
              (freshUrls [⟨"http://y/1", none, none, some "local", none⟩]))
            [⟨"http://x/1", none, none, some "online_search", none⟩]) :=
  c1_history_reconciliation.2
    [("c", [("n", [⟨"http://y/1", none, none, some "local", none⟩])])]
    [("c", [("n", [⟨"http://x/1", none, none, some "online_search", none⟩])])]
    [] "c" "n" _ _ (by decide) (by decide)

/-! ### Claims C6 and C10: the cache-compare updater -/

theorem foldl_preserve {α β : Type} (P : α → Prop) (f : α → β → α)
    (h : ∀ a b, P a → P (f a b)) : ∀ (l : List β) (a : α), P a → P (l.foldl f a) := by
  intro l
  induction l with
  | nil => intro a ha; exact ha
  | cons b bs ih => intro a ha; exact ih (f a b) (h a b ha)

theorem compareName_eq_filterMap (oldList urlInfo : List ChannelData) :
    compareName oldList urlInfo =
      oldList.filterMap (fun info =>
        ((buildNewUrls urlInfo).lookup (pureOf info.url)).map
          (fun res => ⟨info.url, info.date, res, info.origin, info.ipv_type⟩)) := by
  unfold compareName
  have gen : ∀ (l acc : List ChannelData),
      l.foldl (fun acc info =>
        match (buildNewUrls urlInfo).lookup (pureOf info.url) with
        | some res => acc ++ [⟨info.url, info.date, res, info.origin, info.ipv_type⟩]
        | none => acc) acc
      = acc ++ l.filterMap (fun info =>
          ((buildNewUrls urlInfo).lookup (pureOf info.url)).map
            (fun res => ⟨info.url, info.date, res, info.origin, info.ipv_type⟩)) := by
    intro l
    induction l with
    | nil => intro acc; simp
    | cons info rest ih =>
        intro acc
        rcases h : (buildNewUrls urlInfo).lookup (pureOf info.url) with _ | res
        · simp only [List.foldl_cons, h, List.filterMap_cons]
          simpa using ih acc
        · simp only [List.foldl_cons, h, List.filterMap_cons, Option.map_some']
          rw [ih]
          simp
  simpa using gen oldList []

theorem lookup_eq_none_of_not_mem {α : Type} :
    ∀ (l : List (String × α)) (k : String), k ∉ l.map Prod.fst → l.lookup k = none := by
  intro l
  induction l with
  | nil => intro k _; rfl
  | cons p ps ih =>
      intro k hk
      have h1 : ¬ k = p.1 := by
        intro h; exact hk (by simp [h])
      have hb : (k == p.1) = false := by simpa using h1
      have h2 : k ∉ ps.map Prod.fst := by
        intro h; exact hk (by simp [h])
      simp [List.lookup, hb, ih k h2]

theorem lookup_map_if_eq {α : Type} (c : String) (g : α → α) :
    ∀ (l : List (String × α)) (k : String),
      (l.map (fun p => if p.1 = c then (p.1, g p.2) else p)).lookup k =
        if k = c then (l.lookup k).map g else l.lookup k := by
  intro l
  induction l with
  | nil => intro k; by_cases h : k = c <;> simp [h]
  | cons p ps ih =>
      intro k
      rcases p with ⟨pk, pv⟩
      rw [List.map_cons]
      by_cases hp : pk = c
      · have hhead : (if ((pk, pv) : String × α).1 = c then ((pk, pv).1, g (pk, pv).2)
              else (pk, pv)) = (pk, g pv) := by simp [hp]
        rw [hhead]
        by_cases hk : k = pk
        · have hkc : k = c := hk.trans hp
          simp [List.lookup, hkc, hp]
        · have hb : (k == pk) = false := by simpa using hk
          simp [List.lookup, hb, ih]
      · have hhead : (if ((pk, pv) : String × α).1 = c then ((pk, pv).1, g (pk, pv).2)
              else (pk, pv)) = (pk, pv) := by simp [hp]
        rw [hhead]
        by_cases hk : k = pk
        · have hb : (k == pk) = true := by simpa using hk
          have hkc : ¬ k = c := fun h => hp (hk ▸ h)
          simp [List.lookup, hb, hkc]
        · have hb : (k == pk) = false := by simpa using hk
          simp [List.lookup, hb, ih]

theorem lookup2_updateNested (d : CategoryMap) (c n : String) (v : List ChannelData)
    (c' n' : String) :
    lookup2 (updateNested d c n v) c' n' =
      if c' = c ∧ n' = n then (lookup2 d c n).map (fun _ => v) else lookup2 d c' n' := by
  unfold updateNested lookup2
  rw [@lookup_map_if_eq NameMap c (fun nm => nm.map (fun nl => if nl.1 = n then (nl.1, v) else nl)) d c']
  by_cases h1 : c' = c
  · rw [if_pos h1]
    rcases hc : List.lookup c' d with _ | nm
    · have hcc : List.lookup c d = none := by rw [← h1]; exact hc
      simp [hc, hcc]
    · simp only [Option.map_some', Option.some_bind]
      rw [@lookup_map_if_eq (List ChannelData) n (fun _ => v) nm n']
      have hcc : List.lookup c d = some nm := by rw [← h1]; exact hc
      by_cases h2 : n' = n
      · rw [if_pos h2, if_pos ⟨h1, h2⟩, hcc, h2]
        simp
      · rw [if_neg h2, if_neg (fun hc2 => h2 hc2.2)]
  · rw [if_neg h1, if_neg (fun hc2 => h1 hc2.1)]

theorem innerStep_lookup2_other (d : CategoryMap) (cate nm1 : String)
    (fresh : List ChannelData) (x y : String) (hxy : ¬(x = cate ∧ y = nm1)) :
    lookup2 (if fresh ≠ [] ∧ (lookup2 d cate nm1).isSome then
        updateNested d cate nm1 (compareName ((lookup2 d cate nm1).getD []) fresh)
      else d) x y = lookup2 d x y := by
  by_cases hcond : fresh ≠ [] ∧ (lookup2 d cate nm1).isSome = true
  · rw [if_pos hcond, lookup2_updateNested, if_neg hxy]
  · rw [if_neg hcond]

theorem innerStep_lookup2_self (d : CategoryMap) (cate nm1 : String)
    (fresh : List ChannelData) :
    lookup2 (if fresh ≠ [] ∧ (lookup2 d cate nm1).isSome then
        updateNested d cate nm1 (compareName ((lookup2 d cate nm1).getD []) fresh)
      else d) cate nm1
    = if fresh ≠ [] then (lookup2 d cate nm1).map (fun old => compareName old fresh)
      else lookup2 d cate nm1 := by
  by_cases hf : fresh = []
  · have h1 : ¬(fresh ≠ [] ∧ (lookup2 d cate nm1).isSome = true) := fun hc => hc.1 hf
    have h2 : ¬(fresh ≠ []) := fun h => h hf
    rw [if_neg h1, if_neg h2]
  · by_cases hsome : (lookup2 d cate nm1).isSome = true
    · have h1 : fresh ≠ [] ∧ (lookup2 d cate nm1).isSome = true := ⟨hf, hsome⟩
      rw [if_pos h1, lookup2_updateNested, if_pos ⟨rfl, rfl⟩, if_pos hf]
      rcases hs : lookup2 d cate nm1 with _ | old0
      · rw [hs] at hsome; simp at hsome
      · simp
    · have h1 : ¬(fresh ≠ [] ∧ (lookup2 d cate nm1).isSome = true) := fun hc => hsome hc.2
      have hnone : lookup2 d cate nm1 = none := by
        rcases h : lookup2 d cate nm1 with _ | z
        · rfl
        · rw [h] at hsome; simp at hsome
      rw [if_neg h1, if_pos hf, hnone]
      rfl

/-- Refresh combinator describing one cache-compare decision: with no fresh
entry (or later, an empty one) keep the base; with a fresh list apply the
channel rebuild when it is non-empty. -/
def refreshAt (base : Option (List ChannelData)) (fr : Option (List ChannelData)) :
    Option (List ChannelData) :=
  match fr with
  | some fresh => if fresh ≠ [] then base.map (fun old => compareName old fresh) else base
  | none => base

theorem refreshAt_none (b : Option (List ChannelData)) : refreshAt b none = b := rfl

theorem refreshAt_some (b : Option (List ChannelData)) (fr : List ChannelData) :
    refreshAt b (some fr) =
      if fr ≠ [] then b.map (fun old => compareName old fr) else b := rfl

theorem innerFold_lookup2 (cate : String) :
    ∀ (obj : NameMap) (d : CategoryMap) (c' n' : String),
      (obj.map Prod.fst).Nodup →
      lookup2 (obj.foldl (fun d2 nu =>
          if nu.2 ≠ [] ∧ (lookup2 d2 cate nu.1).isSome then
            updateNested d2 cate nu.1 (compareName ((lookup2 d2 cate nu.1).getD []) nu.2)
          else d2) d) c' n'
      = if c' = cate then refreshAt (lookup2 d c' n') (obj.lookup n')
        else lookup2 d c' n' := by
  intro obj
  induction obj with
  | nil =>
      intro d c' n' _
      by_cases h : c' = cate <;> simp [h, refreshAt]
  | cons nu rest ih =>
      intro d c' n' hnd
      have hnd1 : (nu.1 :: rest.map Prod.fst).Nodup := by simpa using hnd
      have hnd' : (rest.map Prod.fst).Nodup := hnd1.of_cons
      have hnotin : nu.1 ∉ rest.map Prod.fst := (List.nodup_cons.mp hnd1).1
      rw [List.foldl_cons, ih _ _ _ hnd']
      by_cases h1 : c' = cate
      · by_cases h2 : n' = nu.1
        · have hlk : List.lookup n' (nu :: rest) = some nu.2 := by
            rcases nu with ⟨nk, nv⟩
            have hb : (n' == nk) = true := by simpa using h2
            simp [List.lookup, hb]
          have hrest : List.lookup n' rest = none := by
            apply lookup_eq_none_of_not_mem
            rw [h2]; exact hnotin
          rw [if_pos h1, if_pos h1, hlk, hrest, refreshAt_none, refreshAt_some]
          rw [h1, h2]
          exact innerStep_lookup2_self d cate nu.1 nu.2
        · have hlk : List.lookup n' (nu :: rest) = List.lookup n' rest := by
            rcases nu with ⟨nk, nv⟩
            have hb : (n' == nk) = false := by simpa using h2
            simp [List.lookup, hb]
          have hcn : lookup2 (if nu.2 ≠ [] ∧ (lookup2 d cate nu.1).isSome then
              updateNested d cate nu.1 (compareName ((lookup2 d cate nu.1).getD []) nu.2)
            else d) c' n' = lookup2 d c' n' := by
            apply innerStep_lookup2_other
            rintro ⟨-, hcc⟩
            exact h2 hcc
          rw [if_pos h1, if_pos h1, hlk, hcn]
      · have hcn : lookup2 (if nu.2 ≠ [] ∧ (lookup2 d cate nu.1).isSome then
            updateNested d cate nu.1 (compareName ((lookup2 d cate nu.1).getD []) nu.2)
          else d) c' n' = lookup2 d c' n' := by
          apply innerStep_lookup2_other
          rintro ⟨hcc, -⟩
          exact h1 hcc
        rw [if_neg h1, if_neg h1, hcn]

theorem cacheCompare_lookup2 :
    ∀ (newData : CategoryMap) (d : CategoryMap) (c' n' : String),
      (newData.map Prod.fst).Nodup →
      (∀ co ∈ newData, (co.2.map Prod.fst).Nodup) →
      lookup2 (newData.foldl (fun d co =>
          co.2.foldl (fun d2 nu =>
            if nu.2 ≠ [] ∧ (lookup2 d2 co.1 nu.1).isSome then
              updateNested d2 co.1 nu.1 (compareName ((lookup2 d2 co.1 nu.1).getD []) nu.2)
            else d2) d) d) c' n'
      = refreshAt (lookup2 d c' n') (lookup2 newData c' n') := by
  intro newData
  induction newData with
  | nil =>
      intro d c' n' _ _
      simp [lookup2, refreshAt]
  | cons co rest ih =>
      intro d c' n' hnd hinner
      have hnd1 : (co.1 :: rest.map Prod.fst).Nodup := by simpa using hnd
      have hnd' : (rest.map Prod.fst).Nodup := hnd1.of_cons
      have hnotin : co.1 ∉ rest.map Prod.fst := (List.nodup_cons.mp hnd1).1
      have hco : (co.2.map Prod.fst).Nodup := hinner co (List.mem_cons_self co rest)
      have hinner2 : ∀ x ∈ rest, (x.2.map Prod.fst).Nodup := by
        intro x hx; exact hinner x (List.mem_cons_of_mem co hx)
      rw [List.foldl_cons, ih _ _ _ hnd' hinner2]
      by_cases h1 : c' = co.1
      · have hrest : lookup2 rest c' n' = none := by
          unfold lookup2
          rw [lookup_eq_none_of_not_mem rest c' (by rw [h1]; exact hnotin)]
          rfl
        have hhead : lookup2 (co :: rest) c' n' = co.2.lookup n' := by
          unfold lookup2
          rcases co with ⟨ck, cv⟩
          have hb : (c' == ck) = true := by simpa using h1
          simp [List.lookup, hb]
        rw [hrest, hhead, refreshAt_none, innerFold_lookup2 co.1 co.2 d c' n' hco,
          if_pos h1]
      · have hhead : lookup2 (co :: rest) c' n' = lookup2 rest c' n' := by
          unfold lookup2
          rcases co with ⟨ck, cv⟩
          have hb : (c' == ck) = false := by simpa using h1
          simp [List.lookup, hb]
        have hstep : lookup2 (co.2.foldl (fun d2 nu =>
            if nu.2 ≠ [] ∧ (lookup2 d2 co.1 nu.1).isSome then
              updateNested d2 co.1 nu.1 (compareName ((lookup2 d2 co.1 nu.1).getD []) nu.2)
            else d2) d) c' n' = lookup2 d c' n' := by
          rw [innerFold_lookup2 co.1 co.2 d c' n' hco, if_neg h1]
        rw [hhead, hstep]


/-- Claim C6: for every snapshot pair, each channel present in both (with a
non-empty fresh list) is replaced by exactly those prior records whose pure
URL appears in the fresh lookup, in prior order, with only the resolution
field replaced from the lookup; url, date, origin and ipv_type are unchanged
and no pure URL absent from the lookup survives. -/
theorem c6_cache_compare_exact :
    (∀ (oldList urlInfo : List ChannelData),
       compareName oldList urlInfo =
         oldList.filterMap (fun info =>
           ((buildNewUrls urlInfo).lookup (pureOf info.url)).map
             (fun res => ⟨info.url, info.date, res, info.origin, info.ipv_type⟩))) ∧
    (∀ (oldList urlInfo : List ChannelData) (r : ChannelData),
       r ∈ compareName oldList urlInfo →
       ∃ info ∈ oldList, r.url = info.url ∧ r.date = info.date ∧ r.origin = info.origin ∧
         r.ipv_type = info.ipv_type ∧
         (buildNewUrls urlInfo).lookup (pureOf r.url) = some r.resolution) ∧
    (∀ (data newData : CategoryMap) (cate name : String)
       (oldList fresh : List ChannelData),
       (newData.map Prod.fst).Nodup →
       (∀ co ∈ newData, (co.2.map Prod.fst).Nodup) →
       lookup2 data cate name = some oldList →
       lookup2 newData cate name = some fresh → fresh ≠ [] →
       lookup2 (getChannelDataCacheWithCompare data newData) cate name =
         some (compareName oldList fresh)) := by
  refine ⟨compareName_eq_filterMap, ?_, ?_⟩
  · intro oldList urlInfo r hr
    rw [compareName_eq_filterMap] at hr
    rcases List.mem_filterMap.mp hr with ⟨info, hinfo, hmap⟩
    rcases h : (buildNewUrls urlInfo).lookup (pureOf info.url) with _ | res
    · rw [h] at hmap; simp at hmap
    · rw [h] at hmap
      simp only [Option.map_some', Option.some.injEq] at hmap
      refine ⟨info, hinfo, ?_, ?_, ?_, ?_, ?_⟩ <;> rw [← hmap]
      · rw [h]
  · intro data newData cate name oldList fresh hnd hinner h1 h2 hne
    unfold getChannelDataCacheWithCompare
    rw [cacheCompare_lookup2 _ _ _ _ hnd hinner, h2, refreshAt_some, if_pos hne, h1]
    rfl

/-- Claim C6 witness: the structure-level part of the theorem applied to a
concrete snapshot pair sharing one channel with a non-empty fresh list. -/
theorem c6_witness :
    lookup2 (getChannelDataCacheWithCompare
        [("c", [("n", [⟨"http://a/1$x", some "d1", some "r0", some "local", some "ipv4"⟩,
                       ⟨"http://b/2", none, none, some "subscribe", none⟩])])]
        [("c", [("n", [⟨"http://a/1", none, some "1920x1080", some "subscribe", none⟩])])])
        "c" "n"
      = some (compareName
          [⟨"http://a/1$x", some "d1", some "r0", some "local", some "ipv4"⟩,
           ⟨"http://b/2", none, none, some "subscribe", none⟩]
          [⟨"http://a/1", none, some "1920x1080", some "subscribe", none⟩]) :=
  c6_cache_compare_exact.2.2
    [("c", [("n", [⟨"http://a/1$x", some "d1", some "r0", some "local", some "ipv4"⟩,
                   ⟨"http://b/2", none, none, some "subscribe", none⟩])])]
    [("c", [("n", [⟨"http://a/1", none, some "1920x1080", some "subscribe", none⟩])])]
    "c" "n" _ _ (by decide) (by decide) (by decide) (by decide) (by decide)

theorem updateNested_fst (d : CategoryMap) (c n : String) (v : List ChannelData) :
    (updateNested d c n v).map Prod.fst = d.map Prod.fst := by
  unfold updateNested
  rw [List.map_map]
  apply List.map_congr_left
  intro cd _
  by_cases h : cd.1 = c <;> simp [h]

theorem updateNested_lookup_keys (d : CategoryMap) (c n : String) (v : List ChannelData)
    (cate : String) :
    ((updateNested d c n v).lookup cate).map (fun nm => nm.map Prod.fst)
      = (d.lookup cate).map (fun nm => nm.map Prod.fst) := by
  unfold updateNested
  rw [@lookup_map_if_eq NameMap c
    (fun nm => nm.map (fun nl => if nl.1 = n then (nl.1, v) else nl)) d cate]
  by_cases h : cate = c
  · rw [if_pos h]
    rcases hc : d.lookup cate with _ | nm
    · rfl
    · simp only [Option.map_some']
      congr 1
      rw [List.map_map]
      apply List.map_congr_left
      intro nl _
      by_cases h2 : nl.1 = n <;> simp [h2]
  · rw [if_neg h]

/-- Claim C10: the cache-compare updater never adds or removes categories or
channel names, and leaves a prior channel list entirely unchanged whenever
the fresh snapshot has no entry for that (category, name) or its fresh list
is empty. -/
theorem c10_cache_compare_frame :
    (∀ (data newData : CategoryMap),
       (getChannelDataCacheWithCompare data newData).map Prod.fst = data.map Prod.fst ∧
       ∀ cate, ((getChannelDataCacheWithCompare data newData).lookup cate).map
           (fun nm => nm.map Prod.fst)
         = (data.lookup cate).map (fun nm => nm.map Prod.fst)) ∧
    (∀ (data newData : CategoryMap) (cate name : String) (oldList : List ChannelData),
       (newData.map Prod.fst).Nodup →
       (∀ co ∈ newData, (co.2.map Prod.fst).Nodup) →
       lookup2 data cate name = some oldList →
       (lookup2 newData cate name = none ∨ lookup2 newData cate name = some []) →
       lookup2 (getChannelDataCacheWithCompare data newData) cate name = some oldList) := by
  constructor
  · intro data newData
    unfold getChannelDataCacheWithCompare
    refine foldl_preserve (fun d' => d'.map Prod.fst = data.map Prod.fst ∧
      ∀ cate, (d'.lookup cate).map (fun nm => nm.map Prod.fst)
        = (data.lookup cate).map (fun nm => nm.map Prod.fst)) _ ?_ newData data
      ⟨rfl, fun _ => rfl⟩
    intro d' co hP
    refine foldl_preserve (fun d2 => d2.map Prod.fst = data.map Prod.fst ∧
      ∀ cate, (d2.lookup cate).map (fun nm => nm.map Prod.fst)
        = (data.lookup cate).map (fun nm => nm.map Prod.fst)) _ ?_ co.2 d' hP
    intro d2 nu hP2
    by_cases hcond : nu.2 ≠ [] ∧ (lookup2 d2 co.1 nu.1).isSome = true
    · rw [if_pos hcond]
      exact ⟨by rw [updateNested_fst]; exact hP2.1,
        fun cate => by rw [updateNested_lookup_keys]; exact hP2.2 cate⟩
    · rw [if_neg hcond]
      exact hP2
  · intro data newData cate name oldList hnd hinner h1 h2
    unfold getChannelDataCacheWithCompare
    rw [cacheCompare_lookup2 _ _ _ _ hnd hinner]
    rcases h2 with h2 | h2
    · rw [h2, refreshAt_none, h1]
    · rw [h2, refreshAt_some, if_neg (fun hcon => hcon rfl), h1]

/-- Claim C10 witness: the frame theorem applied to a concrete prior
structure and a fresh snapshot that does not mention its channel. -/
theorem c10_witness :
    lookup2 (getChannelDataCacheWithCompare
        [("c", [("n", [⟨"http://a/1", none, none, some "local", none⟩])])]
        [("d", [("m", [⟨"http://z/9", none, none, some "subscribe", none⟩])])])
        "c" "n"
      = some [⟨"http://a/1", none, none, some "local", none⟩] :=
  c10_cache_compare_frame.2
    [("c", [("n", [⟨"http://a/1", none, none, some "local", none⟩])])]
    [("d", [("m", [⟨"http://z/9", none, none, some "subscribe", none⟩])])]
    "c" "n" _ (by decide) (by decide) (by decide) (Or.inl (by decide))

/-! ### Merge-engine branch lemmas

Each lemma characterises one exit of the per-candidate loop of
`append_data_to_info_data` under the conditions that select it. -/

theorem processItem_url_none (env : Env) (check : Bool) (wl bl : List String)
    (ov : Option String) (st : MergeState) (c : Candidate) (h : c.url = none) :
    processItem env check wl bl ov st c = st := by
  simp [processItem, h]

theorem processItem_origin_none (env : Env) (check : Bool) (wl bl : List String)
    (ov : Option String) (st : MergeState) (c : Candidate) (u : String)
    (hu : c.url = some u) (h : extractOrigin ov c = none) :
    processItem env check wl bl ov st c = st := by
  simp [processItem, hu, h]

theorem processItem_origin_empty (env : Env) (check : Bool) (wl bl : List String)
    (ov : Option String) (st : MergeState) (c : Candidate) (u : String)
    (hu : c.url = some u) (h : extractOrigin ov c = some "") :
    processItem env check wl bl ov st c = st := by
  simp [processItem, hu, h]

theorem processItem_url_empty (env : Env) (check : Bool) (wl bl : List String)
    (ov : Option String) (st : MergeState) (c : Candidate) (uo : String)
    (hu : c.url = some "") (h : extractOrigin ov c = some uo) (huo : uo ≠ "") :
    processItem env check wl bl ov st c = st := by
  simp [processItem, hu, h, huo]

theorem processItem_dup (env : Env) (check : Bool) (wl bl : List String)
    (ov : Option String) (st : MergeState) (c : Candidate) (u uo : String)
    (hu : c.url = some u) (ho : extractOrigin ov c = some uo) (huo : uo ≠ "")
    (hne : u ≠ "") (hw : whiteInfo u = false) (hdup : pureOf u ∈ st.urls) :
    processItem env check wl bl ov st c = st := by
  simp [processItem, hu, ho, huo, hne, hw, hdup]

theorem processItem_replace (env : Env) (check : Bool) (wl bl : List String)
    (ov : Option String) (st : MergeState) (c : Candidate) (u uo p : String)
    (hu : c.url = some u) (ho : extractOrigin ov c = some uo) (huo : uo ≠ "")
    (hne : u ≠ "") (hw : whiteInfo u = false) (hnd : pureOf u ∉ st.urls)
    (hhost : env.host (pureOf u) ∈ st.hosts)
    (hfind : st.urls.find? (fun q => env.host q == env.host (pureOf u) &&
        decide (q.length < (pureOf u).length)) = some p) :
    processItem env check wl bl ov st c =
      { lst := replaceFirstHost env (env.host (pureOf u))
          (mkRecord u c.date c.resolution uo
            (resolveIpv env st.ipvCache c.ipv_type (env.host (pureOf u)) (pureOf u)).1)
          st.lst
        urls := (st.urls.erase p) ++ [pureOf u]
        hosts := st.hosts
        ipvCache := (resolveIpv env st.ipvCache c.ipv_type (env.host (pureOf u)) (pureOf u)).2 } := by
  simp [processItem, hu, ho, huo, hne, hw, hnd, hhost, hfind]

theorem processItem_collision_discard (env : Env) (check : Bool) (wl bl : List String)
    (ov : Option String) (st : MergeState) (c : Candidate) (u uo : String)
    (hu : c.url = some u) (ho : extractOrigin ov c = some uo) (huo : uo ≠ "")
    (hne : u ≠ "") (hw : whiteInfo u = false) (hnd : pureOf u ∉ st.urls)
    (hhost : env.host (pureOf u) ∈ st.hosts)
    (hfind : st.urls.find? (fun q => env.host q == env.host (pureOf u) &&
        decide (q.length < (pureOf u).length)) = none) :
    processItem env check wl bl ov st c =
      { st with ipvCache :=
          (resolveIpv env st.ipvCache c.ipv_type (env.host (pureOf u)) (pureOf u)).2 } := by
  simp [processItem, hu, ho, huo, hne, hw, hnd, hhost, hfind]

theorem processItem_gate (env : Env) (check : Bool) (wl bl : List String)
    (ov : Option String) (st : MergeState) (c : Candidate) (u uo : String)
    (hu : c.url = some u) (ho : extractOrigin ov c = some uo) (huo : uo ≠ "")
    (hne : u ≠ "")
    (hreach : whiteInfo u = true ∨ (pureOf u ∉ st.urls ∧ env.host (pureOf u) ∉ st.hosts)) :
    processItem env check wl bl ov st c =
      (if (if whiteInfo u = true ∨ (wl ≠ [] ∧ env.matchKw u wl = true) then "whitelist"
            else uo) = "whitelist" ∨ check = false ∨
          (check = true ∧
            env.ipvMatch (resolveIpv env st.ipvCache c.ipv_type
              (env.host (pureOf u)) (pureOf u)).1 = true ∧
            env.matchKw u bl = false) then
        { lst := st.lst ++ [mkRecord u c.date c.resolution
            (if whiteInfo u = true ∨ (wl ≠ [] ∧ env.matchKw u wl = true) then "whitelist"
              else uo)
            (resolveIpv env st.ipvCache c.ipv_type (env.host (pureOf u)) (pureOf u)).1]
          urls := setInsert st.urls (pureOf u)
          hosts := setInsert st.hosts (env.host (pureOf u))
          ipvCache := (resolveIpv env st.ipvCache c.ipv_type (env.host (pureOf u)) (pureOf u)).2 }
      else { st with ipvCache :=
          (resolveIpv env st.ipvCache c.ipv_type (env.host (pureOf u)) (pureOf u)).2 }) := by
  rcases hreach with hwt | ⟨hnd, hnh⟩
  · simp [processItem, hu, ho, huo, hne, hwt]
  · simp [processItem, hu, ho, huo, hne, hnd, hnh]


theorem replaceFirstHost_mem (env : Env) (h : String) (r : ChannelData) :
    ∀ (L : List ChannelData) (x : ChannelData), x ∈ replaceFirstHost env h r L →
      x ∈ L ∨ x = r := by
  intro L
  induction L with
  | nil => intro x hx; simp [replaceFirstHost] at hx
  | cons y ys ih =>
      intro x hx
      unfold replaceFirstHost at hx
      by_cases hc : y.url ≠ "" ∧ env.host y.url = h
      · rw [if_pos hc] at hx
        rcases List.mem_cons.mp hx with h1 | h1
        · exact Or.inr h1
        · exact Or.inl (List.mem_cons_of_mem y h1)
      · rw [if_neg hc] at hx
        rcases List.mem_cons.mp hx with h1 | h1
        · exact Or.inl (h1 ▸ List.mem_cons_self y ys)
        · rcases ih x h1 with h2 | h2
          · exact Or.inl (List.mem_cons_of_mem y h2)
          · exact Or.inr h2

/-- Claim C7: a candidate with a missing or empty url, or with no effective
origin (no override and no own origin, or an empty one), is skipped with the
state unchanged; removing such a candidate from a batch does not change the
merge result, so the batch continues and earlier admissions persist; and
every record of the merged list either was already present or has a
non-empty url. -/
theorem c7_malformed_skipped :
    (∀ (env : Env) (check : Bool) (wl bl : List String) (ov : Option String)
       (st : MergeState) (c : Candidate),
       (c.url = none ∨ c.url = some "" ∨ extractOrigin ov c = none ∨
         extractOrigin ov c = some "") →
       processItem env check wl bl ov st c = st) ∧
    (∀ (env : Env) (check : Bool) (wl bl : List String) (ov : Option String)
       (lst : List ChannelData) (cache : List (String × String))
       (pre post : List Candidate) (bad : Candidate),
       (bad.url = none ∨ bad.url = some "" ∨ extractOrigin ov bad = none ∨
         extractOrigin ov bad = some "") →
       appendDataToInfoData env check wl bl ov lst cache (pre ++ bad :: post)
         = appendDataToInfoData env check wl bl ov lst cache (pre ++ post)) ∧
    (∀ (env : Env) (check : Bool) (wl bl : List String) (ov : Option String)
       (lst : List ChannelData) (cache : List (String × String))
       (batch : List Candidate) (r : ChannelData),
       r ∈ (appendDataToInfoData env check wl bl ov lst cache batch).lst →
       r ∈ lst ∨ r.url ≠ "") := by
  have skip : ∀ (env : Env) (check : Bool) (wl bl : List String) (ov : Option String)
      (st : MergeState) (c : Candidate),
      (c.url = none ∨ c.url = some "" ∨ extractOrigin ov c = none ∨
        extractOrigin ov c = some "") →
      processItem env check wl bl ov st c = st := by
    intro env check wl bl ov st c hbad
    rcases hcu : c.url with _ | u
    · exact processItem_url_none env check wl bl ov st c hcu
    rcases hoo : extractOrigin ov c with _ | uo
    · exact processItem_origin_none env check wl bl ov st c u hcu hoo
    by_cases huo : uo = ""
    · exact processItem_origin_empty env check wl bl ov st c u hcu (huo ▸ hoo)
    by_cases hue : u = ""
    · exact processItem_url_empty env check wl bl ov st c uo (hue ▸ hcu) hoo huo
    · exfalso
      rcases hbad with h | h | h | h
      · rw [hcu] at h; exact Option.noConfusion h
      · rw [hcu] at h; exact hue (Option.some.inj h)
      · rw [hoo] at h; exact Option.noConfusion h
      · rw [hoo] at h
        exact huo (Option.some.inj h)
  have step_mem : ∀ (env : Env) (check : Bool) (wl bl : List String) (ov : Option String)
      (st : MergeState) (c : Candidate) (r : ChannelData),
      r ∈ (processItem env check wl bl ov st c).lst → r ∈ st.lst ∨ r.url ≠ "" := by
    intro env check wl bl ov st c r h
    rcases hcu : c.url with _ | u
    · rw [processItem_url_none env check wl bl ov st c hcu] at h; exact Or.inl h
    rcases hoo : extractOrigin ov c with _ | uo
    · rw [processItem_origin_none env check wl bl ov st c u hcu hoo] at h; exact Or.inl h
    by_cases huo : uo = ""
    · rw [processItem_origin_empty env check wl bl ov st c u hcu (huo ▸ hoo)] at h
      exact Or.inl h
    by_cases hue : u = ""
    · rw [processItem_url_empty env check wl bl ov st c uo (hue ▸ hcu) hoo huo] at h
      exact Or.inl h
    by_cases hw : whiteInfo u = true
    · rw [processItem_gate env check wl bl ov st c u uo hcu hoo huo hue (Or.inl hw)] at h
      by_cases hgate : (if whiteInfo u = true ∨ (wl ≠ [] ∧ env.matchKw u wl = true)
            then "whitelist" else uo) = "whitelist" ∨ check = false ∨
          (check = true ∧ env.ipvMatch (resolveIpv env st.ipvCache c.ipv_type
            (env.host (pureOf u)) (pureOf u)).1 = true ∧ env.matchKw u bl = false)
      · rw [if_pos hgate] at h
        rcases List.mem_append.mp h with h1 | h1
        · exact Or.inl h1
        · right
          rcases List.mem_singleton.mp h1 with rfl
          simpa [mkRecord] using hue
      · rw [if_neg hgate] at h
        exact Or.inl h
    have hwf : whiteInfo u = false := by simpa using hw
    by_cases hdup : pureOf u ∈ st.urls
    · rw [processItem_dup env check wl bl ov st c u uo hcu hoo huo hue hwf hdup] at h
      exact Or.inl h
    by_cases hhost : env.host (pureOf u) ∈ st.hosts
    · rcases hfind : st.urls.find? (fun q => env.host q == env.host (pureOf u) &&
          decide (q.length < (pureOf u).length)) with _ | p
      · rw [processItem_collision_discard env check wl bl ov st c u uo hcu hoo huo hue hwf
          hdup hhost hfind] at h
        exact Or.inl h
      · rw [processItem_replace env check wl bl ov st c u uo p hcu hoo huo hue hwf
          hdup hhost hfind] at h
        rcases replaceFirstHost_mem env (env.host (pureOf u)) _ st.lst r h with h1 | h1
        · exact Or.inl h1
        · right
          rw [h1]
          simpa [mkRecord] using hue
    · rw [processItem_gate env check wl bl ov st c u uo hcu hoo huo hue
        (Or.inr ⟨hdup, hhost⟩)] at h
      by_cases hgate : (if whiteInfo u = true ∨ (wl ≠ [] ∧ env.matchKw u wl = true)
            then "whitelist" else uo) = "whitelist" ∨ check = false ∨
          (check = true ∧ env.ipvMatch (resolveIpv env st.ipvCache c.ipv_type
            (env.host (pureOf u)) (pureOf u)).1 = true ∧ env.matchKw u bl = false)
      · rw [if_pos hgate] at h
        rcases List.mem_append.mp h with h1 | h1
        · exact Or.inl h1
        · right
          rcases List.mem_singleton.mp h1 with rfl
          simpa [mkRecord] using hue
      · rw [if_neg hgate] at h
        exact Or.inl h
  refine ⟨skip, ?_, ?_⟩
  · intro env check wl bl ov lst cache pre post bad hbad
    unfold appendDataToInfoData
    rw [List.foldl_append, List.foldl_append, List.foldl_cons,
      skip env check wl bl ov _ bad hbad]
  · intro env check wl bl ov lst cache batch r
    unfold appendDataToInfoData
    have fold : ∀ (batch : List Candidate) (st : MergeState),
        (∀ x ∈ st.lst, x ∈ lst ∨ x.url ≠ "") →
        ∀ x ∈ (batch.foldl (processItem env check wl bl ov) st).lst,
          x ∈ lst ∨ x.url ≠ "" := by
      intro batch
      induction batch with
      | nil => intro st hst x hx; exact hst x hx
      | cons c cs ih =>
          intro st hst x hx
          rw [List.foldl_cons] at hx
          refine ih (processItem env check wl bl ov st c) ?_ x hx
          intro y hy
          rcases step_mem env check wl bl ov st c y hy with h1 | h1
          · exact hst y h1
          · exact Or.inr h1
    exact fun h => fold batch _ (fun x hx => Or.inl hx) r h

/-- Claim C7 witness: a batch containing a url-less candidate between two
well-formed ones merges exactly as the batch without it. -/
theorem c7_witness :
    appendDataToInfoData envW true [] [] (some "subscribe") [] []
        [⟨some "http://a/1", none, none, none, some "ipv4"⟩,
         ⟨none, none, none, none, none⟩,
         ⟨some "http://b/2", none, none, none, some "ipv4"⟩]
      = appendDataToInfoData envW true [] [] (some "subscribe") [] []
        [⟨some "http://a/1", none, none, none, some "ipv4"⟩,
         ⟨some "http://b/2", none, none, none, some "ipv4"⟩] :=
  c7_malformed_skipped.2.1 envW true [] [] (some "subscribe") [] []
    [⟨some "http://a/1", none, none, none, some "ipv4"⟩]
    [⟨some "http://b/2", none, none, none, some "ipv4"⟩]
    ⟨none, none, none, none, none⟩ (Or.inl rfl)

/-! ### Claim C2: whitelist immunity

The candidate-side immunity holds: a white-flagged candidate bypasses the
duplicate and host-collision steps and is appended with origin `whitelist`.
The record-side immunity claimed by the spec is false: the host-collision
scan replaces the first record whose url has the colliding host, whatever
its origin, so a whitelist record already in the list IS overwritten when a
later non-white-flagged candidate shares its host with a strictly longer
pure URL. -/

/-- Claim C2, counterexample: the channel list holds one whitelist-origin
record for host `hh`; a non-white-flagged `subscribe` candidate with the same
host and a strictly longer pure URL overwrites it, so the whitelist record is
removed by host-collision replacement. -/
theorem c2_counterexample :
    (appendDataToInfoData envW true [] [] (some "subscribe")
        [⟨"http://hh/a$!k", none, none, some "whitelist", some "ipv4"⟩] []
        [⟨some "http://hh/abcde", none, none, none, some "ipv4"⟩]).lst
      = [⟨"http://hh/abcde", none, none, some "subscribe", some "ipv4"⟩]
    ∧ ⟨"http://hh/a$!k", none, none, some "whitelist", some "ipv4"⟩
        ∉ (appendDataToInfoData envW true [] [] (some "subscribe")
            [⟨"http://hh/a$!k", none, none, some "whitelist", some "ipv4"⟩] []
            [⟨some "http://hh/abcde", none, none, none, some "ipv4"⟩]).lst := by
  decide

/-- Claim C2 (amended): a white-flagged candidate is never discarded by the
duplicate or host-collision steps and is always appended with effective
origin `whitelist`, regardless of its ipv_type, of the policy flag and of
any blacklist match; an existing whitelist-origin record, however, may be
overwritten by host-collision replacement (see the counterexample). -/
theorem c2_whiteflag_immune :
    ∀ (env : Env) (check : Bool) (wl bl : List String) (ov : Option String)
      (st : MergeState) (c : Candidate) (u uo : String),
      c.url = some u → extractOrigin ov c = some uo → uo ≠ "" → u ≠ "" →
      whiteInfo u = true →
      (processItem env check wl bl ov st c).lst
        = st.lst ++ [mkRecord u c.date c.resolution "whitelist"
            (resolveIpv env st.ipvCache c.ipv_type (env.host (pureOf u)) (pureOf u)).1] := by
  intro env check wl bl ov st c u uo hu ho huo hne hwt
  have horigin : (if whiteInfo u = true ∨ (wl ≠ [] ∧ env.matchKw u wl = true)
      then "whitelist" else uo) = "whitelist" := if_pos (Or.inl hwt)
  rw [processItem_gate env check wl bl ov st c u uo hu ho huo hne (Or.inl hwt), horigin,
    if_pos (Or.inl rfl)]

/-- Claim C2 witness: the amended theorem applied to a white-flagged
candidate under enforced policy with a blacklist that matches it. -/
theorem c2_witness :
    (processItem envW true [] ["bad"] (some "subscribe")
        ⟨[], [], [], []⟩ ⟨some "http://bad.example/s$!", none, none, none, some "ipv4"⟩).lst
      = [] ++ [mkRecord "http://bad.example/s$!" none none "whitelist"
          (resolveIpv envW [] (some "ipv4")
            (envW.host (pureOf "http://bad.example/s$!"))
            (pureOf "http://bad.example/s$!")).1] :=
  c2_whiteflag_immune envW true [] ["bad"] (some "subscribe") ⟨[], [], [], []⟩
    ⟨some "http://bad.example/s$!", none, none, none, some "ipv4"⟩
    "http://bad.example/s$!" "subscribe" rfl (by decide) (by decide) (by decide) (by decide)

/-- Claim C5: a candidate that reaches the promotion step (it is
white-flagged, or neither its pure URL nor its host collides with the
working sets) has its effective origin forced to `whitelist` exactly when it
is white-flagged or its url matches a whitelist keyword, and it is then
appended exactly when that effective origin is `whitelist`, or policy
enforcement is disabled, or enforcement is enabled and its resolved ipv_type
is accepted and its url matches no blacklist keyword. -/
theorem c5_admission_gate :
    ∀ (env : Env) (check : Bool) (wl bl : List String) (ov : Option String)
      (st : MergeState) (c : Candidate) (u uo : String),
      c.url = some u → extractOrigin ov c = some uo → uo ≠ "" → u ≠ "" →
      (whiteInfo u = true ∨ (pureOf u ∉ st.urls ∧ env.host (pureOf u) ∉ st.hosts)) →
      (processItem env check wl bl ov st c).lst
        = if (if whiteInfo u = true ∨ (wl ≠ [] ∧ env.matchKw u wl = true)
              then "whitelist" else uo) = "whitelist" ∨ check = false ∨
            (check = true ∧
              env.ipvMatch (resolveIpv env st.ipvCache c.ipv_type
                (env.host (pureOf u)) (pureOf u)).1 = true ∧
              env.matchKw u bl = false) then
          st.lst ++ [mkRecord u c.date c.resolution
            (if whiteInfo u = true ∨ (wl ≠ [] ∧ env.matchKw u wl = true)
              then "whitelist" else uo)
            (resolveIpv env st.ipvCache c.ipv_type (env.host (pureOf u)) (pureOf u)).1]
        else st.lst := by
  intro env check wl bl ov st c u uo hu ho huo hne hreach
  rw [processItem_gate env check wl bl ov st c u uo hu ho huo hne hreach]
  by_cases hgate : (if whiteInfo u = true ∨ (wl ≠ [] ∧ env.matchKw u wl = true)
        then "whitelist" else uo) = "whitelist" ∨ check = false ∨
      (check = true ∧ env.ipvMatch (resolveIpv env st.ipvCache c.ipv_type
        (env.host (pureOf u)) (pureOf u)).1 = true ∧ env.matchKw u bl = false)
  · rw [if_pos hgate, if_pos hgate]
  · rw [if_neg hgate, if_neg hgate]

/-- Claim C5 witness: Scenario B of the spec, one candidate at a time under
enforced policy: the whitelist-keyword-matching url is admitted as a
whitelist record; the blacklist-matching url is excluded. -/
theorem c5_witness :
    (processItem envW true ["http://w.example/s"] ["bad.example"] (some "subscribe")
        ⟨[], [], [], []⟩ ⟨some "http://w.example/s", none, none, none, some "ipv4"⟩).lst
      = [mkRecord "http://w.example/s" none none "whitelist" (some "ipv4")]
    ∧ (processItem envW true ["http://w.example/s"] ["bad.example"] (some "subscribe")
        ⟨[], [], [], []⟩ ⟨some "http://bad.example/s", none, none, none, some "ipv4"⟩).lst
      = [] := by
  constructor
  · have h := c5_admission_gate envW true ["http://w.example/s"] ["bad.example"]
      (some "subscribe") ⟨[], [], [], []⟩
      ⟨some "http://w.example/s", none, none, none, some "ipv4"⟩
      "http://w.example/s" "subscribe" rfl (by decide) (by decide) (by decide)
      (Or.inr (by decide))
    rw [h]
    decide
  · have h := c5_admission_gate envW true ["http://w.example/s"] ["bad.example"]
      (some "subscribe") ⟨[], [], [], []⟩
      ⟨some "http://bad.example/s", none, none, none, some "ipv4"⟩
      "http://bad.example/s" "subscribe" rfl (by decide) (by decide) (by decide)
      (Or.inr (by decide))
    rw [h]
    decide

theorem replaceFirstHost_eq_set (env : Env) (hs : String) (r : ChannelData) :
    ∀ (L : List ChannelData),
      (L.findIdx (fun x => decide (x.url ≠ "") && (env.host x.url == hs))) < L.length →
      replaceFirstHost env hs r L
        = L.set (L.findIdx (fun x => decide (x.url ≠ "") && (env.host x.url == hs))) r := by
  intro L
  induction L with
  | nil => intro h; simp at h
  | cons y ys ih =>
      intro h
      by_cases hc : y.url ≠ "" ∧ env.host y.url = hs
      · have hp : (decide (y.url ≠ "") && (env.host y.url == hs)) = true := by
          simp [hc.1, hc.2]
        unfold replaceFirstHost
        rw [if_pos hc, List.findIdx_cons, hp]
        simp
      · have hp : (decide (y.url ≠ "") && (env.host y.url == hs)) = false := by
          by_cases h1 : y.url = ""
          · simp [h1]
          · have h2 : ¬ env.host y.url = hs := fun h2 => hc ⟨h1, h2⟩
            simp [h1, h2]
        unfold replaceFirstHost
        rw [if_neg hc]
        rw [List.findIdx_cons, hp] at h ⊢
        simp only [cond_false] at h ⊢
        have h' : ys.findIdx (fun x => decide (x.url ≠ "") && (env.host x.url == hs))
            < ys.length := Nat.lt_of_succ_lt_succ h
        show y :: replaceFirstHost env hs r ys
          = y :: ys.set (ys.findIdx (fun x => decide (x.url ≠ "") && (env.host x.url == hs))) r
        rw [ih h']

/-- Claim C9: when host-collision replacement fires, the incoming candidate
overwrites exactly the first record (in list order) whose url is non-empty
and has the colliding host, at that record's index; the list length and all
other positions are unchanged, and the replacement record takes all five
fields (annotated url, date, resolution, effective origin, resolved
ipv_type) from the incoming candidate. -/
theorem c9_replacement_frame :
    ∀ (env : Env) (check : Bool) (wl bl : List String) (ov : Option String)
      (st : MergeState) (c : Candidate) (u uo p : String),
      c.url = some u → extractOrigin ov c = some uo → uo ≠ "" → u ≠ "" →
      whiteInfo u = false → pureOf u ∉ st.urls →
      env.host (pureOf u) ∈ st.hosts →
      st.urls.find? (fun q => env.host q == env.host (pureOf u) &&
        decide (q.length < (pureOf u).length)) = some p →
      st.lst.findIdx (fun x => decide (x.url ≠ "") &&
        (env.host x.url == env.host (pureOf u))) < st.lst.length →
      ((processItem env check wl bl ov st c).lst
          = st.lst.set
              (st.lst.findIdx (fun x => decide (x.url ≠ "") &&
                (env.host x.url == env.host (pureOf u))))
              (mkRecord u c.date c.resolution uo
                (resolveIpv env st.ipvCache c.ipv_type (env.host (pureOf u)) (pureOf u)).1)
        ∧ (processItem env check wl bl ov st c).lst.length = st.lst.length
        ∧ ∀ j, j ≠ st.lst.findIdx (fun x => decide (x.url ≠ "") &&
            (env.host x.url == env.host (pureOf u))) →
            (processItem env check wl bl ov st c).lst[j]? = st.lst[j]?) := by
  intro env check wl bl ov st c u uo p hu ho huo hne hw hnd hhost hfind hidx
  have hmain : (processItem env check wl bl ov st c).lst
      = st.lst.set
          (st.lst.findIdx (fun x => decide (x.url ≠ "") &&
            (env.host x.url == env.host (pureOf u))))
          (mkRecord u c.date c.resolution uo
            (resolveIpv env st.ipvCache c.ipv_type (env.host (pureOf u)) (pureOf u)).1) := by
    rw [processItem_replace env check wl bl ov st c u uo p hu ho huo hne hw hnd hhost hfind]
    exact replaceFirstHost_eq_set env (env.host (pureOf u)) _ st.lst hidx
  refine ⟨hmain, ?_, ?_⟩
  · rw [hmain, List.length_set]
  · intro j hj
    rw [hmain, List.getElem?_set_ne (Ne.symm hj)]

/-- Claim C9 witness: the frame theorem applied to a concrete state with two
records, the second of which holds the colliding host and is overwritten in
place. -/
theorem c9_witness :
    ((processItem envW true [] [] (some "subscribe")
        ⟨[⟨"http://other/x", none, none, some "local", some "ipv4"⟩,
          ⟨"http://hh/a", none, none, some "local", some "ipv4"⟩],
         ["http://other/x", "http://hh/a"], ["other", "hh"], []⟩
        ⟨some "http://hh/abcde", none, none, none, some "ipv4"⟩).lst
      = [⟨"http://other/x", none, none, some "local", some "ipv4"⟩,
         ⟨"http://hh/a", none, none, some "local", some "ipv4"⟩].set 1
          (mkRecord "http://hh/abcde" none none "subscribe"
            (resolveIpv envW [] (some "ipv4") (envW.host (pureOf "http://hh/abcde"))
              (pureOf "http://hh/abcde")).1))
    ∧ (processItem envW true [] [] (some "subscribe")
        ⟨[⟨"http://other/x", none, none, some "local", some "ipv4"⟩,
          ⟨"http://hh/a", none, none, some "local", some "ipv4"⟩],
         ["http://other/x", "http://hh/a"], ["other", "hh"], []⟩
        ⟨some "http://hh/abcde", none, none, none, some "ipv4"⟩).lst.length = 2 := by
  have h := c9_replacement_frame envW true [] [] (some "subscribe")
    ⟨[⟨"http://other/x", none, none, some "local", some "ipv4"⟩,
      ⟨"http://hh/a", none, none, some "local", some "ipv4"⟩],
     ["http://other/x", "http://hh/a"], ["other", "hh"], []⟩
    ⟨some "http://hh/abcde", none, none, none, some "ipv4"⟩
    "http://hh/abcde" "subscribe" "http://hh/a"
    rfl (by decide) (by decide) (by decide) (by decide) (by decide) (by decide)
    (by decide) (by decide)
  refine ⟨?_, ?_⟩
  · have h1 := h.1
    rw [h1]
    have : ([⟨"http://other/x", none, none, some "local", some "ipv4"⟩,
        ⟨"http://hh/a", none, none, some "local", some "ipv4"⟩] :
          List ChannelData).findIdx (fun x => decide (x.url ≠ "") &&
        (envW.host x.url == envW.host (pureOf "http://hh/abcde"))) = 1 := by decide
    rw [this]
  · have h2 := h.2.1
    rw [h2]
    rfl

/-! ### Claim C8: probe orchestrator concurrency

`process_sort_channel_list` creates one asyncio task per record up front, so
every scheduled task exists (and is unresolved) before any completes: the
claimed bound on UNRESOLVED tasks is false for any input with more than 10
records.  What the `Semaphore(10)` bounds is the number of probes in flight
(tasks holding the semaphore), and `asyncio.gather` does delay the ranking
pass until every task has resolved. -/

theorem runningCount_replicate_pending (n : Nat) :
    runningCount (List.replicate n TaskStatus.pending) = 0 := by
  induction n with
  | zero => rfl
  | succ m ih =>
      rw [List.replicate_succ]
      simp only [runningCount, List.countP_cons] at ih ⊢
      simp [ih]

theorem runningCount_set_running :
    ∀ (ts : List TaskStatus) (i : Nat) (hi : i < ts.length),
      ts.get ⟨i, hi⟩ = TaskStatus.pending →
      runningCount (ts.set i TaskStatus.running) = runningCount ts + 1 := by
  intro ts
  induction ts with
  | nil => intro i hi; simp at hi
  | cons t rest ih =>
      intro i hi hp
      cases i with
      | zero =>
          simp only [List.get] at hp
          subst hp
          simp [runningCount, List.set, List.countP_cons]
      | succ j =>
          have hj : j < rest.length := Nat.lt_of_succ_lt_succ hi
          have := ih j hj (by simpa [List.get] using hp)
          simp only [runningCount, List.set, List.countP_cons] at this ⊢
          omega

theorem runningCount_set_done :
    ∀ (ts : List TaskStatus) (i : Nat),
      runningCount (ts.set i TaskStatus.done) ≤ runningCount ts := by
  intro ts
  induction ts with
  | nil => intro i; simp [runningCount]
  | cons t rest ih =>
      intro i
      cases i with
      | zero =>
          cases t <;> simp [runningCount, List.set, List.countP_cons]
      | succ j =>
          simp only [runningCount, List.set, List.countP_cons]
          have := ih j
          simp only [runningCount] at this
          omega

/-- Claim C8, counterexample: with 11 scheduled records, the initial
reachable state of the probe orchestrator already has 11 unresolved tasks
(all created by `asyncio.create_task` before any resolves), refuting the
claim that at no instant more than 10 probe tasks are unresolved. -/
theorem c8_counterexample :
    ProbeReachable 11 (probeInit 11) ∧ 10 < unresolvedCount (probeInit 11).tasks :=
  ⟨Relation.ReflTransGen.refl, by decide⟩

/-- Claim C8 (amended): in every reachable state of the probe orchestrator,
at most 10 probes hold the semaphore (are in flight) simultaneously, and the
ranking phase is entered only with every scheduled probe task resolved. -/
theorem c8_probe_bound :
    ∀ (n : Nat) (s : ProbeState), ProbeReachable n s →
      runningCount s.tasks ≤ 10 ∧
      (s.phase = ProbePhase.ranking → ∀ t ∈ s.tasks, t = TaskStatus.done) := by
  intro n s h
  induction h with
  | refl =>
      constructor
      · simp [probeInit, runningCount_replicate_pending]
      · intro hp
        simp [probeInit] at hp
  | tail hsteps hstep ih =>
      cases hstep with
      | start ts i hi hp hsem =>
          constructor
          · rw [runningCount_set_running ts i hi hp]
            omega
          · intro hph
            simp at hph
      | finish ts i hi hr =>
          constructor
          · exact Nat.le_trans (runningCount_set_done ts i) ih.1
          · intro hph
            simp at hph
      | gather ts hall =>
          exact ⟨ih.1, fun _ => hall⟩

/-- Claim C8 witness: the amended bound applied to the reachable state in
which the first of two scheduled probes has acquired the semaphore. -/
theorem c8_witness :
    runningCount ((List.replicate 2 TaskStatus.pending).set 0 TaskStatus.running) ≤ 10 ∧
    ((ProbePhase.probing = ProbePhase.ranking) →
      ∀ t ∈ (List.replicate 2 TaskStatus.pending).set 0 TaskStatus.running,
        t = TaskStatus.done) :=
  c8_probe_bound 2
    ⟨(List.replicate 2 TaskStatus.pending).set 0 TaskStatus.running, ProbePhase.probing⟩
    (Relation.ReflTransGen.single
      (ProbeStep.start (List.replicate 2 TaskStatus.pending) 0 (by decide) (by decide)
        (by decide)))

/-! ### Claim C3: the host-collision rule -/

theorem replaceFirstHost_length (env : Env) (hs : String) (r : ChannelData) :
    ∀ (L : List ChannelData), (replaceFirstHost env hs r L).length = L.length := by
  intro L
  induction L with
  | nil => rfl
  | cons y ys ih =>
      unfold replaceFirstHost
      by_cases hc : y.url ≠ "" ∧ env.host y.url = hs
      · rw [if_pos hc]
        rfl
      · rw [if_neg hc]
        simp [ih]

theorem find?_of_filter_singleton (env : Env) (hh : String) (len : Nat) :
    ∀ (L : List String) (q0 : String),
      L.filter (fun q => env.host q == hh) = [q0] →
      L.find? (fun q => env.host q == hh && decide (q.length < len))
        = if q0.length < len then some q0 else none := by
  intro L
  induction L with
  | nil => intro q0 hf; simp at hf
  | cons x xs ih =>
      intro q0 hf
      by_cases hx : env.host x = hh
      · have hxb : (env.host x == hh) = true := by simpa using hx
        rw [List.filter_cons_of_pos (by simpa using hxb)] at hf
        have hx0 : x = q0 := (List.cons.injEq _ _ _ _ ▸ hf).1
        have hrest : xs.filter (fun q => env.host q == hh) = [] :=
          (List.cons.injEq _ _ _ _ ▸ hf).2
        have hnone : xs.find? (fun q => env.host q == hh && decide (q.length < len))
            = none := by
          rw [List.find?_eq_none]
          intro q hq
          have : (env.host q == hh) = false := by
            by_contra hcon
            have : q ∈ xs.filter (fun q => env.host q == hh) :=
              List.mem_filter.mpr ⟨hq, by simpa using hcon⟩
            rw [hrest] at this
            simp at this
          simp [this]
        by_cases hlt : x.length < len
        · rw [List.find?_cons_of_pos _ (by simp [hxb, hlt])]
          rw [hx0] at hlt ⊢
          rw [if_pos hlt]
        · rw [List.find?_cons_of_neg _ (by simp [hxb, hlt]), hnone]
          rw [hx0] at hlt
          rw [if_neg hlt]
      · have hxb : (env.host x == hh) = false := by simpa using hx
        rw [List.filter_cons_of_neg (by simpa using hxb)] at hf
        rw [List.find?_cons_of_neg _ (by simp [hxb])]
        exact ih q0 hf

/-- Expected survivor of a same-host sequence according to the claim: keep
the candidate with the strictly greater pure-URL length, ties keeping the
earlier one. -/
def longerPure (cur : String) (c : Candidate) : String :=
  match c.url with
  | some u => if (pureOf cur).length < (pureOf u).length then u else cur
  | none => cur

/-- Claim C3: for a non-white-flagged candidate whose host already belongs
to exactly one existing pure URL, the existing record is replaced exactly
when the candidate's pure URL is strictly longer (ties and shorter
candidates are discarded), the candidate is never appended in either
outcome; and over a whole sequence of same-host non-white candidates merged
into a single-record list, the surviving record's url is the one with the
greatest pure-URL length seen so far, ties keeping the earliest. -/
theorem c3_host_collision :
    (∀ (env : Env) (check : Bool) (wl bl : List String) (ov : Option String)
       (st : MergeState) (c : Candidate) (u uo q0 : String),
       c.url = some u → extractOrigin ov c = some uo → uo ≠ "" → u ≠ "" →
       whiteInfo u = false → pureOf u ∉ st.urls →
       env.host (pureOf u) ∈ st.hosts →
       st.urls.filter (fun q => env.host q == env.host (pureOf u)) = [q0] →
       ((q0.length < (pureOf u).length →
           processItem env check wl bl ov st c =
             { lst := replaceFirstHost env (env.host (pureOf u))
                 (mkRecord u c.date c.resolution uo
                   (resolveIpv env st.ipvCache c.ipv_type
                     (env.host (pureOf u)) (pureOf u)).1) st.lst
               urls := (st.urls.erase q0) ++ [pureOf u]
               hosts := st.hosts
               ipvCache := (resolveIpv env st.ipvCache c.ipv_type
                 (env.host (pureOf u)) (pureOf u)).2 })
        ∧ (¬ q0.length < (pureOf u).length →
             processItem env check wl bl ov st c =
               { st with ipvCache := (resolveIpv env st.ipvCache c.ipv_type
                   (env.host (pureOf u)) (pureOf u)).2 })
        ∧ (processItem env check wl bl ov st c).lst.length = st.lst.length)) ∧
    (∀ (env : Env) (check : Bool) (wl bl : List String) (ov : Option String)
       (r0 : ChannelData) (hh : String) (cs : List Candidate)
       (cache : List (String × String)),
       (∀ s, env.host (pureOf s) = env.host s) →
       r0.url ≠ "" → env.host r0.url = hh →
       (∀ c ∈ cs, ∃ u uo, c.url = some u ∧ u ≠ "" ∧ whiteInfo u = false ∧
          env.host (pureOf u) = hh ∧ extractOrigin ov c = some uo ∧ uo ≠ "") →
       ((appendDataToInfoData env check wl bl ov [r0] cache cs).lst.map ChannelData.url
          = [cs.foldl longerPure r0.url]
        ∧ (appendDataToInfoData env check wl bl ov [r0] cache cs).lst.length = 1)) := by
  constructor
  · intro env check wl bl ov st c u uo q0 hu ho huo hne hw hnd hhost hfilter
    have hfind := find?_of_filter_singleton env (env.host (pureOf u)) (pureOf u).length
      st.urls q0 hfilter
    refine ⟨?_, ?_, ?_⟩
    · intro hlt
      rw [if_pos hlt] at hfind
      exact processItem_replace env check wl bl ov st c u uo q0 hu ho huo hne hw hnd
        hhost hfind
    · intro hlt
      rw [if_neg hlt] at hfind
      exact processItem_collision_discard env check wl bl ov st c u uo hu ho huo hne hw
        hnd hhost hfind
    · by_cases hlt : q0.length < (pureOf u).length
      · rw [if_pos hlt] at hfind
        rw [processItem_replace env check wl bl ov st c u uo q0 hu ho huo hne hw hnd
          hhost hfind]
        exact replaceFirstHost_length env (env.host (pureOf u)) _ st.lst
      · rw [if_neg hlt] at hfind
        rw [processItem_collision_discard env check wl bl ov st c u uo hu ho huo hne hw
          hnd hhost hfind]
  · intro env check wl bl ov r0 hh cs cache hinv hr0 hhost0 hwf
    have main : ∀ (cs : List Candidate) (st : MergeState) (cur : String),
        (∀ c ∈ cs, ∃ u uo, c.url = some u ∧ u ≠ "" ∧ whiteInfo u = false ∧
           env.host (pureOf u) = hh ∧ extractOrigin ov c = some uo ∧ uo ≠ "") →
        (∃ r, st.lst = [r] ∧ r.url = cur) → st.urls = [pureOf cur] →
        st.hosts = [hh] → cur ≠ "" → env.host cur = hh →
        ((cs.foldl (processItem env check wl bl ov) st).lst.map ChannelData.url
           = [cs.foldl longerPure cur]
         ∧ (cs.foldl (processItem env check wl bl ov) st).lst.length = 1) := by
      intro cs
      induction cs with
      | nil =>
          intro st cur _ hlst hurls hhosts hcur hhostcur
          rcases hlst with ⟨r, hr, hru⟩
          simp [hr, hru]
      | cons c cs' ih =>
          intro st cur hwf2 hlst hurls hhosts hcur hhostcur
          rcases hwf2 c (List.mem_cons_self c cs') with
            ⟨u, uo, hu, hune, hwhite, hhostu, ho, huo⟩
          have hwf' : ∀ x ∈ cs', ∃ u uo, x.url = some u ∧ u ≠ "" ∧ whiteInfo u = false ∧
              env.host (pureOf u) = hh ∧ extractOrigin ov x = some uo ∧ uo ≠ "" :=
            fun x hx => hwf2 x (List.mem_cons_of_mem c hx)
          rcases hlst with ⟨r, hr, hru⟩
          rw [List.foldl_cons, List.foldl_cons]
          have hfold : longerPure cur c =
              if (pureOf cur).length < (pureOf u).length then u else cur := by
            simp [longerPure, hu]
          by_cases hdup : pureOf u = pureOf cur
          · have hmem : pureOf u ∈ st.urls := by rw [hurls, hdup]; exact List.mem_cons_self _ _
            rw [processItem_dup env check wl bl ov st c u uo hu ho huo hune hwhite hmem]
            have hnlt : ¬ (pureOf cur).length < (pureOf u).length := by
              rw [hdup]; exact Nat.lt_irrefl _
            rw [hfold, if_neg hnlt]
            exact ih st cur hwf' ⟨r, hr, hru⟩ hurls hhosts hcur hhostcur
          · have hnd : pureOf u ∉ st.urls := by
              rw [hurls]
              intro hmem
              rcases List.mem_singleton.mp hmem with h
              exact hdup h
            have hhostmem : env.host (pureOf u) ∈ st.hosts := by
              rw [hhosts, hhostu]; exact List.mem_cons_self _ _
            have hcurhost : (env.host (pureOf cur) == env.host (pureOf u)) = true := by
              rw [hinv cur, hhostcur, hhostu]
              simp
            by_cases hlt : (pureOf cur).length < (pureOf u).length
            · have hfind : st.urls.find? (fun q => env.host q == env.host (pureOf u) &&
                  decide (q.length < (pureOf u).length)) = some (pureOf cur) := by
                rw [hurls]
                rw [List.find?_cons_of_pos _ (by simp [hcurhost, hlt])]
              rw [processItem_replace env check wl bl ov st c u uo (pureOf cur) hu ho huo
                hune hwhite hnd hhostmem hfind]
              have hrep : replaceFirstHost env (env.host (pureOf u))
                  (mkRecord u c.date c.resolution uo
                    (resolveIpv env st.ipvCache c.ipv_type
                      (env.host (pureOf u)) (pureOf u)).1) st.lst
                  = [mkRecord u c.date c.resolution uo
                      (resolveIpv env st.ipvCache c.ipv_type
                        (env.host (pureOf u)) (pureOf u)).1] := by
                rw [hr]
                unfold replaceFirstHost
                rw [if_pos ⟨by rw [hru]; exact hcur, by rw [hru, hhostu, hhostcur]⟩]
              have hurls' : (st.urls.erase (pureOf cur)) ++ [pureOf u] = [pureOf u] := by
                rw [hurls]
                simp
              rw [hfold, if_pos hlt]
              refine ih _ u hwf' ?_ ?_ ?_ hune ?_
              · exact ⟨_, hrep, rfl⟩
              · show (st.urls.erase (pureOf cur)) ++ [pureOf u] = [pureOf u]
                exact hurls'
              · show st.hosts = [hh]
                exact hhosts
              · rw [← hinv u]; exact hhostu
            · have hfind : st.urls.find? (fun q => env.host q == env.host (pureOf u) &&
                  decide (q.length < (pureOf u).length)) = none := by
                rw [hurls]
                rw [List.find?_cons_of_neg _ (by simp [hcurhost, hlt])]
                rfl
              rw [processItem_collision_discard env check wl bl ov st c u uo hu ho huo
                hune hwhite hnd hhostmem hfind]
              rw [hfold, if_neg hlt]
              exact ih _ cur hwf' ⟨r, by simpa using hr, hru⟩ (by simpa using hurls)
                (by simpa using hhosts) hcur hhostcur
    have hinit : initUrls [r0] = [pureOf r0.url] := by
      simp [initUrls, setInsert, hr0]
    have hinith : initHosts env [pureOf r0.url] = [hh] := by
      simp [initHosts, setInsert]
      rw [hinv r0.url, hhost0]
    simp only [appendDataToInfoData]
    rw [hinit, hinith]
    exact main cs ⟨[r0], [pureOf r0.url], [hh], cache⟩ r0.url hwf ⟨r0, rfl, rfl⟩ rfl rfl
      hr0 hhost0

/-! ### Claim C4: idempotence of the merge

Idempotence fails as claimed: a white-flagged candidate bypasses the
duplicate check and is appended again on a second merge, and a candidate
rejected by the policy gate in the first pass can fire host-collision
replacement in the second pass once another candidate has registered its
host.  With policy enforcement disabled and no white-flagged candidate,
merging a batch twice from an empty list is idempotent; the invariant
machinery below proves it. -/

/-- Well-formedness of one candidate for the idempotence theorem: a present
non-empty url without force-keep marker, and a truthy effective origin. -/
def wfCand (ov : Option String) (c : Candidate) : Prop :=
  ∃ u uo, c.url = some u ∧ u ≠ "" ∧ whiteInfo u = false ∧
    extractOrigin ov c = some uo ∧ uo ≠ ""

/-- Invariant tying the channel list to the working sets during a merge with
no white-flagged candidates: all records have truthy urls, the `urls` set is
duplicate-free with pairwise distinct hosts, `url_hosts` is its host image,
and the records' pure URLs enumerate `urls`. -/
structure MergeInv (env : Env) (st : MergeState) : Prop where
  urlsNe : ∀ r ∈ st.lst, r.url ≠ ""
  urlsNodup : st.urls.Nodup
  hostsNodup : (st.urls.map env.host).Nodup
  hostsPerm : List.Perm st.hosts (st.urls.map env.host)
  puresPerm : List.Perm (st.lst.map (fun r => pureOf r.url)) st.urls

/-- Coverage of a batch by a working set: each candidate's host is
represented in `urls` by a pure URL at least as long as the candidate's. -/
def covered (env : Env) (cs : List Candidate) (st : MergeState) : Prop :=
  ∀ c ∈ cs, ∀ u, c.url = some u →
    ∃ q ∈ st.urls, env.host q = env.host (pureOf u) ∧ (pureOf u).length ≤ q.length

/-- Growth relation between working sets: every entry keeps a same-host
representative at least as long. -/
def urlsLe (env : Env) (us us' : List String) : Prop :=
  ∀ q ∈ us, ∃ q' ∈ us', env.host q' = env.host q ∧ q.length ≤ q'.length

theorem nodup_map_inj {α β : Type} (f : α → β) :
    ∀ (l : List α), (l.map f).Nodup →
      ∀ a ∈ l, ∀ b ∈ l, f a = f b → a = b := by
  intro l
  induction l with
  | nil => intro _ a ha; simp at ha
  | cons z zs ih =>
      intro hnd a ha b hb hf
      have hnd1 : (f z :: zs.map f).Nodup := by simpa using hnd
      have hz : f z ∉ zs.map f := (List.nodup_cons.mp hnd1).1
      have hnd' : (zs.map f).Nodup := (List.nodup_cons.mp hnd1).2
      rcases List.mem_cons.mp ha with ha1 | ha1
      · rcases List.mem_cons.mp hb with hb1 | hb1
        · rw [ha1, hb1]
        · exfalso
          apply hz
          rw [← ha1, hf]
          exact List.mem_map_of_mem f hb1
      · rcases List.mem_cons.mp hb with hb1 | hb1
        · exfalso
          apply hz
          rw [← hb1, ← hf]
          exact List.mem_map_of_mem f ha1
        · exact ih hnd' a ha1 b hb1 hf

theorem replaceFirstHost_split (env : Env) (hs : String) (r : ChannelData) :
    ∀ (L : List ChannelData), (∃ x ∈ L, x.url ≠ "" ∧ env.host x.url = hs) →
      ∃ L1 x L2, L = L1 ++ x :: L2 ∧ x.url ≠ "" ∧ env.host x.url = hs ∧
        replaceFirstHost env hs r L = L1 ++ r :: L2 := by
  intro L
  induction L with
  | nil => intro h; simp at h
  | cons y ys ih =>
      intro h
      by_cases hc : y.url ≠ "" ∧ env.host y.url = hs
      · refine ⟨[], y, ys, rfl, hc.1, hc.2, ?_⟩
        unfold replaceFirstHost
        rw [if_pos hc]
        rfl
      · have h' : ∃ x ∈ ys, x.url ≠ "" ∧ env.host x.url = hs := by
          rcases h with ⟨x, hx, hx1, hx2⟩
          rcases List.mem_cons.mp hx with rfl | hx
          · exact absurd ⟨hx1, hx2⟩ hc
          · exact ⟨x, hx, hx1, hx2⟩
        rcases ih h' with ⟨L1, x, L2, hsplit, hx1, hx2, hrep⟩
        refine ⟨y :: L1, x, L2, by rw [hsplit]; rfl, hx1, hx2, ?_⟩
        unfold replaceFirstHost
        rw [if_neg hc, hrep]
        rfl

theorem initUrls_eq :
    ∀ (lst : List ChannelData), (∀ r ∈ lst, r.url ≠ "") →
      (lst.map (fun r => pureOf r.url)).Nodup →
      initUrls lst = lst.map (fun r => pureOf r.url) := by
  have gen : ∀ (lst : List ChannelData) (acc : List String),
      (∀ r ∈ lst, r.url ≠ "") →
      (acc ++ lst.map (fun r => pureOf r.url)).Nodup →
      lst.foldl (fun a r => if r.url ≠ "" then setInsert a (pureOf r.url) else a) acc
        = acc ++ lst.map (fun r => pureOf r.url) := by
    intro lst
    induction lst with
    | nil => intro acc _ _; simp
    | cons r rest ih =>
        intro acc hne hnd
        have hr : r.url ≠ "" := hne r (List.mem_cons_self r rest)
        have hnotin : pureOf r.url ∉ acc := by
          intro hmem
          have : ¬ (acc ++ (r :: rest).map (fun r => pureOf r.url)).Nodup := by
            intro hcon
            have hdisj := List.disjoint_of_nodup_append hcon
            exact hdisj hmem (by simp)
          exact this hnd
        rw [List.foldl_cons, if_pos hr]
        have hset : setInsert acc (pureOf r.url) = acc ++ [pureOf r.url] := by
          unfold setInsert
          rw [if_neg hnotin]
        rw [hset, ih (acc ++ [pureOf r.url]) (fun x hx => hne x (List.mem_cons_of_mem r hx))
          (by simpa using hnd)]
        simp
  intro lst hne hnd
  unfold initUrls
  rw [gen lst [] hne (by simpa using hnd)]
  rfl

theorem initHosts_eq (env : Env) :
    ∀ (us : List String), (us.map env.host).Nodup →
      initHosts env us = us.map env.host := by
  have gen : ∀ (us : List String) (acc : List String),
      (acc ++ us.map env.host).Nodup →
      us.foldl (fun a u => setInsert a (env.host u)) acc = acc ++ us.map env.host := by
    intro us
    induction us with
    | nil => intro acc _; simp
    | cons u rest ih =>
        intro acc hnd
        have hnotin : env.host u ∉ acc := by
          intro hmem
          have hdisj := List.disjoint_of_nodup_append hnd
          exact hdisj hmem (by simp)
        rw [List.foldl_cons]
        have hset : setInsert acc (env.host u) = acc ++ [env.host u] := by
          unfold setInsert
          rw [if_neg hnotin]
        rw [hset, ih (acc ++ [env.host u]) (by simpa using hnd)]
        simp
  intro us hnd
  unfold initHosts
  rw [gen us [] (by simpa using hnd)]
  rfl

theorem step_inv (env : Env) (wl bl : List String) (ov : Option String)
    (st : MergeState) (c : Candidate)
    (hinv : ∀ s, env.host (pureOf s) = env.host s)
    (hwf : wfCand ov c) (hSt : MergeInv env st) :
    MergeInv env (processItem env false wl bl ov st c) := by
  rcases hwf with ⟨u, uo, hu, hune, hwhite, ho, huo⟩
  by_cases hdup : pureOf u ∈ st.urls
  · rw [processItem_dup env false wl bl ov st c u uo hu ho huo hune hwhite hdup]
    exact hSt
  by_cases hhost : env.host (pureOf u) ∈ st.hosts
  · rcases hfind : st.urls.find? (fun q => env.host q == env.host (pureOf u) &&
        decide (q.length < (pureOf u).length)) with _ | p
    · rw [processItem_collision_discard env false wl bl ov st c u uo hu ho huo hune
        hwhite hdup hhost hfind]
      exact ⟨hSt.urlsNe, hSt.urlsNodup, hSt.hostsNodup, hSt.hostsPerm, hSt.puresPerm⟩
    · have hpmem : p ∈ st.urls := List.mem_of_find?_eq_some hfind
      have hpred := List.find?_some hfind
      have hphost : env.host p = env.host (pureOf u) := by
        simp only [Bool.and_eq_true, decide_eq_true_eq, beq_iff_eq] at hpred
        exact hpred.1
      rw [processItem_replace env false wl bl ov st c u uo p hu ho huo hune hwhite hdup
        hhost hfind]
      have hx : ∃ x ∈ st.lst, x.url ≠ "" ∧ env.host x.url = env.host (pureOf u) := by
        have hpin : p ∈ st.lst.map (fun r => pureOf r.url) :=
          (hSt.puresPerm).mem_iff.mpr hpmem
        rcases List.mem_map.mp hpin with ⟨x, hxmem, hxp⟩
        refine ⟨x, hxmem, hSt.urlsNe x hxmem, ?_⟩
        rw [← hinv x.url, hxp, hphost]
      rcases replaceFirstHost_split env (env.host (pureOf u))
        (mkRecord u c.date c.resolution uo
          (resolveIpv env st.ipvCache c.ipv_type (env.host (pureOf u)) (pureOf u)).1)
        st.lst hx with ⟨L1, x, L2, hLsplit, hxne, hxhost, hrep⟩
      have hxpure_mem : pureOf x.url ∈ st.urls := by
        apply (hSt.puresPerm).mem_iff.mp
        rw [hLsplit]
        simp
      have hxp : pureOf x.url = p := by
        apply nodup_map_inj env.host st.urls hSt.hostsNodup _ hxpure_mem p hpmem
        rw [hinv x.url, hxhost, hphost]
      have hpures_old : st.lst.map (fun r => pureOf r.url)
          = (L1.map (fun r => pureOf r.url)) ++ p :: (L2.map (fun r => pureOf r.url)) := by
        rw [hLsplit]
        simp [hxp]
      have hpermA : List.Perm (st.lst.map (fun r => pureOf r.url))
          (p :: ((L1.map (fun r => pureOf r.url)) ++ (L2.map (fun r => pureOf r.url)))) := by
        rw [hpures_old]
        exact List.perm_middle
      have hpermB : List.Perm st.urls (p :: st.urls.erase p) :=
        List.perm_cons_erase hpmem
      have hperm1 : List.Perm (st.urls.erase p)
          ((L1.map (fun r => pureOf r.url)) ++ (L2.map (fun r => pureOf r.url))) := by
        apply List.Perm.cons_inv (a := p)
        exact (hpermB.symm.trans (hSt.puresPerm.symm.trans hpermA))
      have hpures_new : (L1 ++ (mkRecord u c.date c.resolution uo
            (resolveIpv env st.ipvCache c.ipv_type (env.host (pureOf u)) (pureOf u)).1)
            :: L2).map (fun r => pureOf r.url)
          = (L1.map (fun r => pureOf r.url)) ++ pureOf u :: (L2.map (fun r => pureOf r.url)) := by
        simp [mkRecord]
      have hpermC : List.Perm ((st.urls.erase p) ++ [pureOf u])
          (pureOf u :: st.urls.erase p) := List.perm_append_singleton _ _
      have herase_nodup : (st.urls.erase p).Nodup := hSt.urlsNodup.erase p
      have hpu_notin : pureOf u ∉ st.urls.erase p := fun hmem =>
        hdup (List.mem_of_mem_erase hmem)
      have hmap_hosts_old : List.Perm (st.urls.map env.host)
          (env.host p :: (st.urls.erase p).map env.host) := by
        have := hpermB.map env.host
        simpa using this
      constructor
      · intro r hr
        rw [hrep] at hr
        rcases List.mem_append.mp hr with h1 | h1
        · exact hSt.urlsNe r (by rw [hLsplit]; exact List.mem_append_left _ h1)
        · rcases List.mem_cons.mp h1 with h2 | h2
          · rw [h2]; simpa [mkRecord] using hune
          · exact hSt.urlsNe r
              (by rw [hLsplit]; exact List.mem_append_right _ (List.mem_cons_of_mem x h2))
      · exact (hpermC.nodup_iff).mpr (List.nodup_cons.mpr ⟨hpu_notin, herase_nodup⟩)
      · have h1 : List.Perm (((st.urls.erase p) ++ [pureOf u]).map env.host)
            (env.host (pureOf u) :: (st.urls.erase p).map env.host) := by
          simp
        apply (h1.nodup_iff).mpr
        rw [← hphost]
        exact (hmap_hosts_old.nodup_iff).mp hSt.hostsNodup
      · show List.Perm st.hosts (((st.urls.erase p) ++ [pureOf u]).map env.host)
        have h1 : List.Perm (((st.urls.erase p) ++ [pureOf u]).map env.host)
            (env.host (pureOf u) :: (st.urls.erase p).map env.host) := by
          simp
        apply hSt.hostsPerm.trans
        apply hmap_hosts_old.trans
        rw [hphost]
        exact h1.symm
      · show List.Perm ((replaceFirstHost env (env.host (pureOf u))
            (mkRecord u c.date c.resolution uo
              (resolveIpv env st.ipvCache c.ipv_type (env.host (pureOf u)) (pureOf u)).1)
            st.lst).map (fun r => pureOf r.url)) ((st.urls.erase p) ++ [pureOf u])
        rw [hrep, hpures_new]
        apply List.Perm.trans List.perm_middle
        apply List.Perm.trans _ hpermC.symm
        exact List.Perm.cons (pureOf u) hperm1.symm
  · rw [processItem_gate env false wl bl ov st c u uo hu ho huo hune (Or.inr ⟨hdup, hhost⟩),
      if_pos (Or.inr (Or.inl rfl))]
    have hsu : setInsert st.urls (pureOf u) = st.urls ++ [pureOf u] := by
      unfold setInsert
      rw [if_neg hdup]
    have hsh : setInsert st.hosts (env.host (pureOf u))
        = st.hosts ++ [env.host (pureOf u)] := by
      unfold setInsert
      rw [if_neg hhost]
    rw [hsu, hsh]
    have hhost_notin : env.host (pureOf u) ∉ st.urls.map env.host := fun hmem =>
      hhost ((hSt.hostsPerm.mem_iff).mpr hmem)
    constructor
    · intro r hr
      rcases List.mem_append.mp hr with h1 | h1
      · exact hSt.urlsNe r h1
      · rcases List.mem_singleton.mp h1 with h2
        rw [h2]
        simpa [mkRecord] using hune
    · exact ((List.perm_append_singleton _ _).nodup_iff).mpr
        (List.nodup_cons.mpr ⟨hdup, hSt.urlsNodup⟩)
    · have h1 : List.Perm ((st.urls ++ [pureOf u]).map env.host)
          (env.host (pureOf u) :: st.urls.map env.host) := by
        simp
      exact (h1.nodup_iff).mpr (List.nodup_cons.mpr ⟨hhost_notin, hSt.hostsNodup⟩)
    · show List.Perm (st.hosts ++ [env.host (pureOf u)])
        ((st.urls ++ [pureOf u]).map env.host)
      have h1 : (st.urls ++ [pureOf u]).map env.host
          = st.urls.map env.host ++ [env.host (pureOf u)] := by
        simp
      rw [h1]
      exact hSt.hostsPerm.append_right _
    · show List.Perm ((st.lst ++ [mkRecord u c.date c.resolution _ _]).map
          (fun r => pureOf r.url)) (st.urls ++ [pureOf u])
      have h1 : (st.lst ++ [mkRecord u c.date c.resolution
            (if whiteInfo u = true ∨ (wl ≠ [] ∧ env.matchKw u wl = true) then "whitelist"
              else uo)
            (resolveIpv env st.ipvCache c.ipv_type (env.host (pureOf u)) (pureOf u)).1]).map
            (fun r => pureOf r.url)
          = st.lst.map (fun r => pureOf r.url) ++ [pureOf u] := by
        simp [mkRecord]
      rw [h1]
      exact hSt.puresPerm.append_right _

theorem step_urlsLe (env : Env) (wl bl : List String) (ov : Option String)
    (st : MergeState) (c : Candidate)
    (hwf : wfCand ov c) :
    urlsLe env st.urls (processItem env false wl bl ov st c).urls := by
  rcases hwf with ⟨u, uo, hu, hune, hwhite, ho, huo⟩
  by_cases hdup : pureOf u ∈ st.urls
  · rw [processItem_dup env false wl bl ov st c u uo hu ho huo hune hwhite hdup]
    exact fun q hq => ⟨q, hq, rfl, Nat.le_refl _⟩
  by_cases hhost : env.host (pureOf u) ∈ st.hosts
  · rcases hfind : st.urls.find? (fun q => env.host q == env.host (pureOf u) &&
        decide (q.length < (pureOf u).length)) with _ | p
    · rw [processItem_collision_discard env false wl bl ov st c u uo hu ho huo hune
        hwhite hdup hhost hfind]
      exact fun q hq => ⟨q, hq, rfl, Nat.le_refl _⟩
    · have hpred := List.find?_some hfind
      simp only [Bool.and_eq_true, decide_eq_true_eq, beq_iff_eq] at hpred
      rw [processItem_replace env false wl bl ov st c u uo p hu ho huo hune hwhite hdup
        hhost hfind]
      intro q hq
      by_cases hqp : q = p
      · refine ⟨pureOf u, ?_, ?_, ?_⟩
        · exact List.mem_append_right _ (List.mem_singleton.mpr rfl)
        · rw [hqp, hpred.1]
        · rw [hqp]
          exact Nat.le_of_lt hpred.2
      · refine ⟨q, ?_, rfl, Nat.le_refl _⟩
        exact List.mem_append_left _ ((List.mem_erase_of_ne hqp).mpr hq)
  · rw [processItem_gate env false wl bl ov st c u uo hu ho huo hune (Or.inr ⟨hdup, hhost⟩),
      if_pos (Or.inr (Or.inl rfl))]
    intro q hq
    refine ⟨q, ?_, rfl, Nat.le_refl _⟩
    show q ∈ setInsert st.urls (pureOf u)
    unfold setInsert
    rw [if_neg hdup]
    exact List.mem_append_left _ hq

theorem step_cover_self (env : Env) (wl bl : List String) (ov : Option String)
    (st : MergeState) (c : Candidate)
    (hwf : wfCand ov c) (hSt : MergeInv env st) :
    ∀ u, c.url = some u →
      ∃ q ∈ (processItem env false wl bl ov st c).urls,
        env.host q = env.host (pureOf u) ∧ (pureOf u).length ≤ q.length := by
  rcases hwf with ⟨u0, uo, hu, hune, hwhite, ho, huo⟩
  intro u hu'
  have huu : u = u0 := by
    rw [hu] at hu'
    exact (Option.some.inj hu').symm
  subst huu
  by_cases hdup : pureOf u ∈ st.urls
  · rw [processItem_dup env false wl bl ov st c u uo hu ho huo hune hwhite hdup]
    exact ⟨pureOf u, hdup, rfl, Nat.le_refl _⟩
  by_cases hhost : env.host (pureOf u) ∈ st.hosts
  · rcases hfind : st.urls.find? (fun q => env.host q == env.host (pureOf u) &&
        decide (q.length < (pureOf u).length)) with _ | p
    · rw [processItem_collision_discard env false wl bl ov st c u uo hu ho huo hune
        hwhite hdup hhost hfind]
      have hmem : env.host (pureOf u) ∈ st.urls.map env.host :=
        (hSt.hostsPerm.mem_iff).mp hhost
      rcases List.mem_map.mp hmem with ⟨q, hq, hqh⟩
      have hnone := List.find?_eq_none.mp hfind q hq
      simp only [Bool.and_eq_true, decide_eq_true_eq, beq_iff_eq, not_and] at hnone
      refine ⟨q, hq, hqh, ?_⟩
      exact Nat.le_of_not_lt (hnone hqh)
    · rw [processItem_replace env false wl bl ov st c u uo p hu ho huo hune hwhite hdup
        hhost hfind]
      refine ⟨pureOf u, ?_, rfl, Nat.le_refl _⟩
      exact List.mem_append_right _ (List.mem_singleton.mpr rfl)
  · rw [processItem_gate env false wl bl ov st c u uo hu ho huo hune (Or.inr ⟨hdup, hhost⟩),
      if_pos (Or.inr (Or.inl rfl))]
    refine ⟨pureOf u, ?_, rfl, Nat.le_refl _⟩
    show pureOf u ∈ setInsert st.urls (pureOf u)
    unfold setInsert
    rw [if_neg hdup]
    exact List.mem_append_right _ (List.mem_singleton.mpr rfl)

theorem pass2_step (env : Env) (wl bl : List String) (ov : Option String)
    (st : MergeState) (c : Candidate)
    (hwf : wfCand ov c) (hSt : MergeInv env st)
    (hcov : ∀ u, c.url = some u →
      ∃ q ∈ st.urls, env.host q = env.host (pureOf u) ∧ (pureOf u).length ≤ q.length) :
    (processItem env false wl bl ov st c).lst = st.lst ∧
    (processItem env false wl bl ov st c).urls = st.urls ∧
    (processItem env false wl bl ov st c).hosts = st.hosts := by
  rcases hwf with ⟨u, uo, hu, hune, hwhite, ho, huo⟩
  by_cases hdup : pureOf u ∈ st.urls
  · rw [processItem_dup env false wl bl ov st c u uo hu ho huo hune hwhite hdup]
    exact ⟨rfl, rfl, rfl⟩
  · rcases hcov u hu with ⟨q, hq, hqh, hqlen⟩
    have hhost : env.host (pureOf u) ∈ st.hosts := by
      apply (hSt.hostsPerm.mem_iff).mpr
      rw [← hqh]
      exact List.mem_map_of_mem env.host hq
    have hfind : st.urls.find? (fun x => env.host x == env.host (pureOf u) &&
        decide (x.length < (pureOf u).length)) = none := by
      rw [List.find?_eq_none]
      intro x hx
      simp only [Bool.and_eq_true, decide_eq_true_eq, beq_iff_eq, not_and]
      intro hxh
      have hxq : x = q := by
        apply nodup_map_inj env.host st.urls hSt.hostsNodup x hx q hq
        rw [hxh, hqh]
      rw [hxq]
      exact Nat.not_lt.mpr hqlen
    rw [processItem_collision_discard env false wl bl ov st c u uo hu ho huo hune
      hwhite hdup hhost hfind]
    exact ⟨rfl, rfl, rfl⟩

theorem envW_hostInv : ∀ s, envW.host (pureOf s) = envW.host s := by
  intro s
  simp [envW, hostOf, pureOf_idem]

/-- Claim C3 witness: the sequence part of the host-collision theorem on a
concrete single-host run: a longer candidate replaces, a shorter one is
discarded, and exactly one record survives. -/
theorem c3_witness :
    ((appendDataToInfoData envW false [] [] (some "subscribe")
        [⟨"http://h/aa", none, none, some "local", some "ipv4"⟩] []
        [⟨some "http://h/bbbb", none, none, none, some "ipv4"⟩,
         ⟨some "http://h/c", none, none, none, some "ipv4"⟩]).lst.map ChannelData.url
      = [[⟨some "http://h/bbbb", none, none, none, some "ipv4"⟩,
          ⟨some "http://h/c", none, none, none, some "ipv4"⟩].foldl longerPure
            "http://h/aa"]
    ∧ (appendDataToInfoData envW false [] [] (some "subscribe")
        [⟨"http://h/aa", none, none, some "local", some "ipv4"⟩] []
        [⟨some "http://h/bbbb", none, none, none, some "ipv4"⟩,
         ⟨some "http://h/c", none, none, none, some "ipv4"⟩]).lst.length = 1) :=
  c3_host_collision.2 envW false [] [] (some "subscribe")
    ⟨"http://h/aa", none, none, some "local", some "ipv4"⟩ "h"
    [⟨some "http://h/bbbb", none, none, none, some "ipv4"⟩,
     ⟨some "http://h/c", none, none, none, some "ipv4"⟩] []
    envW_hostInv (by decide) (by decide)
    (by
      intro c hc
      rcases List.mem_cons.mp hc with h1 | h1
      · exact ⟨"http://h/bbbb", "subscribe", by rw [h1], by decide, by decide,
          by decide, by rw [h1]; decide, by decide⟩
      · rcases List.mem_cons.mp h1 with h2 | h2
        · exact ⟨"http://h/c", "subscribe", by rw [h2], by decide, by decide,
            by decide, by rw [h2]; decide, by decide⟩
        · simp at h2)

theorem covered_mono (env : Env) (cs : List Candidate) (st st' : MergeState)
    (hle : urlsLe env st.urls st'.urls) (hcov : covered env cs st) : covered env cs st' := by
  intro c hc u hu
  rcases hcov c hc u hu with ⟨q, hq, hqh, hqlen⟩
  rcases hle q hq with ⟨q', hq', hq'h, hq'len⟩
  exact ⟨q', hq', by rw [hq'h, hqh], Nat.le_trans hqlen hq'len⟩

theorem pass1 (env : Env) (wl bl : List String) (ov : Option String)
    (hinv : ∀ s, env.host (pureOf s) = env.host s) :
    ∀ (cs acc : List Candidate) (st : MergeState),
      (∀ c ∈ cs, wfCand ov c) → MergeInv env st → covered env acc st →
      MergeInv env (cs.foldl (processItem env false wl bl ov) st) ∧
      covered env (acc ++ cs) (cs.foldl (processItem env false wl bl ov) st) := by
  intro cs
  induction cs with
  | nil =>
      intro acc st _ hSt hcov
      refine ⟨hSt, ?_⟩
      intro c hc u hu
      exact hcov c (by simpa using hc) u hu
  | cons c cs' ih =>
      intro acc st hwf hSt hcov
      have hwfc := hwf c (List.mem_cons_self c cs')
      have hwf' : ∀ x ∈ cs', wfCand ov x := fun x hx => hwf x (List.mem_cons_of_mem c hx)
      have hSt1 := step_inv env wl bl ov st c hinv hwfc hSt
      have hle := step_urlsLe env wl bl ov st c hwfc
      have hcov1 : covered env acc (processItem env false wl bl ov st c) :=
        covered_mono env acc st _ hle hcov
      have hcov2 : covered env (acc ++ [c]) (processItem env false wl bl ov st c) := by
        intro x hx u hu
        rcases List.mem_append.mp hx with h | h
        · exact hcov1 x h u hu
        · have hx2 := List.mem_singleton.mp h
          rw [hx2] at hu
          exact step_cover_self env wl bl ov st c hwfc hSt u hu
      have hmain := ih (acc ++ [c]) (processItem env false wl bl ov st c) hwf' hSt1 hcov2
      rw [List.foldl_cons]
      refine ⟨hmain.1, ?_⟩
      intro x hx u hu
      apply hmain.2 x _ u hu
      rw [List.append_assoc]
      simpa using hx

theorem pass2 (env : Env) (wl bl : List String) (ov : Option String) :
    ∀ (cs : List Candidate) (st : MergeState),
      (∀ c ∈ cs, wfCand ov c) → MergeInv env st → covered env cs st →
      (cs.foldl (processItem env false wl bl ov) st).lst = st.lst ∧
      (cs.foldl (processItem env false wl bl ov) st).urls = st.urls ∧
      (cs.foldl (processItem env false wl bl ov) st).hosts = st.hosts := by
  intro cs
  induction cs with
  | nil => intro st _ _ _; exact ⟨rfl, rfl, rfl⟩
  | cons c cs' ih =>
      intro st hwf hSt hcov
      have hwfc := hwf c (List.mem_cons_self c cs')
      have hwf' : ∀ x ∈ cs', wfCand ov x := fun x hx => hwf x (List.mem_cons_of_mem c hx)
      obtain ⟨h1, h2, h3⟩ := pass2_step env wl bl ov st c hwfc hSt
        (fun u hu => hcov c (List.mem_cons_self c cs') u hu)
      have hSt1 : MergeInv env (processItem env false wl bl ov st c) := by
        constructor
        · rw [h1]; exact hSt.urlsNe
        · rw [h2]; exact hSt.urlsNodup
        · rw [h2]; exact hSt.hostsNodup
        · rw [h2, h3]; exact hSt.hostsPerm
        · rw [h1, h2]; exact hSt.puresPerm
      have hcov1 : covered env cs' (processItem env false wl bl ov st c) := by
        intro x hx u hu
        rcases hcov x (List.mem_cons_of_mem c hx) u hu with ⟨q, hq, hqh, hql⟩
        refine ⟨q, ?_, hqh, hql⟩
        rw [h2]
        exact hq
      obtain ⟨g1, g2, g3⟩ := ih (processItem env false wl bl ov st c) hwf' hSt1 hcov1
      rw [List.foldl_cons]
      exact ⟨g1.trans h1, g2.trans h2, g3.trans h3⟩

/-- Claim C4, counterexample: merging the same two-candidate batch twice
under enforced policy is NOT idempotent (the blacklist-rejected first
candidate replaces the admitted one on the second pass), and merging a batch
with a white-flagged candidate twice duplicates its pure URL. -/
theorem c4_counterexample :
    ((appendDataToInfoData envW true [] ["bad"] (some "subscribe")
        (appendDataToInfoData envW true [] ["bad"] (some "subscribe") [] []
          [⟨some "http://h/bad/yy", none, none, none, some "ipv4"⟩,
           ⟨some "http://h/ok", none, none, none, some "ipv4"⟩]).lst
        (appendDataToInfoData envW true [] ["bad"] (some "subscribe") [] []
          [⟨some "http://h/bad/yy", none, none, none, some "ipv4"⟩,
           ⟨some "http://h/ok", none, none, none, some "ipv4"⟩]).ipvCache
        [⟨some "http://h/bad/yy", none, none, none, some "ipv4"⟩,
         ⟨some "http://h/ok", none, none, none, some "ipv4"⟩]).lst
      ≠ (appendDataToInfoData envW true [] ["bad"] (some "subscribe") [] []
          [⟨some "http://h/bad/yy", none, none, none, some "ipv4"⟩,
           ⟨some "http://h/ok", none, none, none, some "ipv4"⟩]).lst)
    ∧ ¬ (((appendDataToInfoData envW true [] [] (some "subscribe")
          (appendDataToInfoData envW true [] [] (some "subscribe") [] []
            [⟨some "http://h/w$!", none, none, none, some "ipv4"⟩]).lst
          (appendDataToInfoData envW true [] [] (some "subscribe") [] []
            [⟨some "http://h/w$!", none, none, none, some "ipv4"⟩]).ipvCache
          [⟨some "http://h/w$!", none, none, none, some "ipv4"⟩]).lst.map
            (fun r => pureOf r.url)).Nodup) := by
  decide

/-- Claim C4 (amended): with policy enforcement disabled and no white-flagged
candidate, merging an identical batch of well-formed candidates twice into an
initially empty channel list yields the same list as merging once, and the
once-merged list has pairwise distinct pure URLs and pairwise distinct
hosts. -/
theorem c4_idempotent_nowhite :
    ∀ (env : Env) (wl bl : List String) (ov : Option String)
      (cache : List (String × String)) (cs : List Candidate),
      (∀ s, env.host (pureOf s) = env.host s) →
      (∀ c ∈ cs, wfCand ov c) →
      ((appendDataToInfoData env false wl bl ov
          (appendDataToInfoData env false wl bl ov [] cache cs).lst
          (appendDataToInfoData env false wl bl ov [] cache cs).ipvCache cs).lst
        = (appendDataToInfoData env false wl bl ov [] cache cs).lst
      ∧ ((appendDataToInfoData env false wl bl ov [] cache cs).lst.map
          (fun r => pureOf r.url)).Nodup
      ∧ ((appendDataToInfoData env false wl bl ov [] cache cs).lst.map
          (fun r => env.host r.url)).Nodup) := by
  intro env wl bl ov cache cs hinv hwf
  have h0 : appendDataToInfoData env false wl bl ov [] cache cs
      = cs.foldl (processItem env false wl bl ov) ⟨[], [], [], cache⟩ := rfl
  have hSt0 : MergeInv env (⟨[], [], [], cache⟩ : MergeState) := by
    constructor
    · intro r hr; simp at hr
    · exact List.nodup_nil
    · exact List.nodup_nil
    · exact List.Perm.refl _
    · exact List.Perm.refl _
  have hcov0 : covered env [] (⟨[], [], [], cache⟩ : MergeState) := by
    intro c hc; simp at hc
  obtain ⟨hInv1, hCov1⟩ := pass1 env wl bl ov hinv cs [] ⟨[], [], [], cache⟩ hwf hSt0 hcov0
  rw [← h0] at hInv1 hCov1
  have hpuresNodup : ((appendDataToInfoData env false wl bl ov [] cache cs).lst.map
      (fun r => pureOf r.url)).Nodup :=
    (hInv1.puresPerm.nodup_iff).mpr hInv1.urlsNodup
  have hne := hInv1.urlsNe
  have hhostsNodup2 : (((appendDataToInfoData env false wl bl ov [] cache cs).lst.map
      (fun r => pureOf r.url)).map env.host).Nodup :=
    ((hInv1.puresPerm.map env.host).nodup_iff).mpr hInv1.hostsNodup
  have hi1 : initUrls (appendDataToInfoData env false wl bl ov [] cache cs).lst
      = (appendDataToInfoData env false wl bl ov [] cache cs).lst.map
          (fun r => pureOf r.url) :=
    initUrls_eq _ hne hpuresNodup
  have hi2 : initHosts env (initUrls (appendDataToInfoData env false wl bl ov [] cache cs).lst)
      = ((appendDataToInfoData env false wl bl ov [] cache cs).lst.map
          (fun r => pureOf r.url)).map env.host := by
    rw [hi1]
    exact initHosts_eq env _ hhostsNodup2
  have hstate2 : appendDataToInfoData env false wl bl ov
      (appendDataToInfoData env false wl bl ov [] cache cs).lst
      (appendDataToInfoData env false wl bl ov [] cache cs).ipvCache cs
      = cs.foldl (processItem env false wl bl ov)
          ⟨(appendDataToInfoData env false wl bl ov [] cache cs).lst,
           (appendDataToInfoData env false wl bl ov [] cache cs).lst.map
             (fun r => pureOf r.url),
           ((appendDataToInfoData env false wl bl ov [] cache cs).lst.map
             (fun r => pureOf r.url)).map env.host,
           (appendDataToInfoData env false wl bl ov [] cache cs).ipvCache⟩ := by
    have hgen : ∀ (L : List ChannelData) (C : List (String × String)),
        appendDataToInfoData env false wl bl ov L C cs
          = cs.foldl (processItem env false wl bl ov)
              ⟨L, initUrls L, initHosts env (initUrls L), C⟩ := fun L C => rfl
    rw [hgen (appendDataToInfoData env false wl bl ov [] cache cs).lst
      (appendDataToInfoData env false wl bl ov [] cache cs).ipvCache, hi2, hi1]
  have hSt2 : MergeInv env
      (⟨(appendDataToInfoData env false wl bl ov [] cache cs).lst,
        (appendDataToInfoData env false wl bl ov [] cache cs).lst.map
          (fun r => pureOf r.url),
        ((appendDataToInfoData env false wl bl ov [] cache cs).lst.map
          (fun r => pureOf r.url)).map env.host,
        (appendDataToInfoData env false wl bl ov [] cache cs).ipvCache⟩ : MergeState) := by
    constructor
    · exact hne
    · exact hpuresNodup
    · exact hhostsNodup2
    · exact List.Perm.refl _
    · exact List.Perm.refl _
  have hCov2 : covered env cs
      (⟨(appendDataToInfoData env false wl bl ov [] cache cs).lst,
        (appendDataToInfoData env false wl bl ov [] cache cs).lst.map
          (fun r => pureOf r.url),
        ((appendDataToInfoData env false wl bl ov [] cache cs).lst.map
          (fun r => pureOf r.url)).map env.host,
        (appendDataToInfoData env false wl bl ov [] cache cs).ipvCache⟩ : MergeState) := by
    intro c hc u hu
    rcases hCov1 c (by simpa using hc) u hu with ⟨q, hq, hqh, hql⟩
    exact ⟨q, (hInv1.puresPerm.mem_iff).mpr hq, hqh, hql⟩
  obtain ⟨hl, -, -⟩ := pass2 env wl bl ov cs _ hwf hSt2 hCov2
  refine ⟨?_, hpuresNodup, ?_⟩
  · rw [hstate2, hl]
  · have hmapeq : (appendDataToInfoData env false wl bl ov [] cache cs).lst.map
        (fun r => env.host r.url)
        = ((appendDataToInfoData env false wl bl ov [] cache cs).lst.map
            (fun r => pureOf r.url)).map env.host := by
      rw [List.map_map]
      apply List.map_congr_left
      intro r _
      exact (hinv r.url).symm
    rw [hmapeq]
    exact hhostsNodup2

/-- Claim C4 witness: the amended idempotence theorem applied to a concrete
well-formed two-candidate batch (the counterexample batch, now merged with
policy enforcement disabled). -/
theorem c4_witness :
    ((appendDataToInfoData envW false [] ["bad"] (some "subscribe")
        (appendDataToInfoData envW false [] ["bad"] (some "subscribe") [] []
          [⟨some "http://h/bad/yy", none, none, none, some "ipv4"⟩,
           ⟨some "http://x/ok", none, none, none, some "ipv4"⟩]).lst
        (appendDataToInfoData envW false [] ["bad"] (some "subscribe") [] []
          [⟨some "http://h/bad/yy", none, none, none, some "ipv4"⟩,
           ⟨some "http://x/ok", none, none, none, some "ipv4"⟩]).ipvCache
        [⟨some "http://h/bad/yy", none, none, none, some "ipv4"⟩,
         ⟨some "http://x/ok", none, none, none, some "ipv4"⟩]).lst
      = (appendDataToInfoData envW false [] ["bad"] (some "subscribe") [] []
          [⟨some "http://h/bad/yy", none, none, none, some "ipv4"⟩,
           ⟨some "http://x/ok", none, none, none, some "ipv4"⟩]).lst
    ∧ ((appendDataToInfoData envW false [] ["bad"] (some "subscribe") [] []
          [⟨some "http://h/bad/yy", none, none, none, some "ipv4"⟩,
           ⟨some "http://x/ok", none, none, none, some "ipv4"⟩]).lst.map
            (fun r => pureOf r.url)).Nodup
    ∧ ((appendDataToInfoData envW false [] ["bad"] (some "subscribe") [] []
          [⟨some "http://h/bad/yy", none, none, none, some "ipv4"⟩,
           ⟨some "http://x/ok", none, none, none, some "ipv4"⟩]).lst.map
            (fun r => envW.host r.url)).Nodup) :=
  c4_idempotent_nowhite envW [] ["bad"] (some "subscribe") []
    [⟨some "http://h/bad/yy", none, none, none, some "ipv4"⟩,
     ⟨some "http://x/ok", none, none, none, some "ipv4"⟩]
    envW_hostInv
    (by
      intro c hc
      rcases List.mem_cons.mp hc with h1 | h1
      · exact ⟨"http://h/bad/yy", "subscribe", by rw [h1], by decide, by decide,
          by rw [h1]; decide, by decide⟩
      · rcases List.mem_cons.mp h1 with h2 | h2
        · exact ⟨"http://x/ok", "subscribe", by rw [h2], by decide, by decide,
            by rw [h2]; decide, by decide⟩
        · simp at h2)

end IptvApi
